import Mathlib

/-!
The flat-file credential store and the PLAIN authentication session of isasl.

A shallow embedding of `isasl.c`.  Bytes are natural numbers, a buffer is a
`List Nat`, a pointer into a buffer is an index, and the byte that follows a
buffer is NUL (reads past the end of a list yield `0`).  An `Option` result
whose value is `none` stands for an aborted process (a failed `assert` or a
null pointer handed to `strdup`).
-/

namespace Isasl

set_option maxRecDepth 200000

/-! ## C library functions used by the source -/

/-- The C-locale `isspace`: space, `\t`, `\n`, `\v`, `\f`, `\r`. -/
def isspace (c : Nat) : Bool := c == 32 || (decide (9 ≤ c) && decide (c ≤ 13))

/-- The bytes of the C string that starts at the beginning of `s`. -/
def cstr (s : List Nat) : List Nat := s.takeWhile (fun c => c != 0)

/-- The C `strlen`. -/
def strlen (s : List Nat) : Nat := (cstr s).length

/-- The C `strcmp`; the end of a list is read as the terminating NUL. -/
def strcmp : List Nat → List Nat → Int
  | [], [] => 0
  | [], b :: _ => if b = 0 then 0 else -1
  | a :: _, [] => if a = 0 then 0 else 1
  | a :: s, b :: t =>
    if a = b then (if a = 0 then 0 else strcmp s t)
    else if a < b then -1 else 1

/-- The C `strdup` of a non-null string. -/
def strdup (s : List Nat) : List Nat := cstr s

/-- The loop `while (*p && pred(*p)) p++` over the buffer `buf`, as the index reached. -/
def skip_while (pred : Nat → Bool) (buf : List Nat) (p : Nat) : Nat :=
  p + ((buf.drop p).takeWhile (fun c => c != 0 && pred c)).length

/-- The bytes `fgets` moves into the buffer and the rest of the stream: at most
`n` bytes, stopping after a newline. -/
def fgets_aux : Nat → List Nat → List Nat × List Nat
  | 0, s => ([], s)
  | _ + 1, [] => ([], [])
  | n + 1, c :: s =>
    if c = 10 then ([c], s)
    else ((c :: (fgets_aux n s).1), (fgets_aux n s).2)

/-- The C `fgets(up, size, sfile)`: `none` at end of file, otherwise the bytes read
(at most `size - 1`) and the remaining stream. -/
def fgets (size : Nat) (sfile : List Nat) : Option (List Nat × List Nat) :=
  match sfile with
  | [] => none
  | _ :: _ => some (fgets_aux (size - 1) sfile)

/-! ## Data model -/

/-- Modelled from the spec: `isasl.h` is not among the sources; the status codes
it defines are kept as distinct symbolic values. -/
inductive sasl_result
  | SASL_OK
  | SASL_FAIL
  | SASL_NOMEM
  | SASL_BADPARAM
  deriving DecidableEq, Repr

/-- Modelled from the spec: `isasl.h` is not among the sources; the property
numbers are the two recognised kinds and any other number. -/
inductive sasl_prop
  | SASL_USERNAME
  | ISASL_CONFIG
  | other (n : Nat)
  deriving DecidableEq, Repr

/-- One record of the table; the `next` pointer is the tail of the bucket chain. -/
structure user_db_entry_t where
  username : List Nat
  password : List Nat
  config : Option (List Nat)
  deriving DecidableEq, Repr

/-- The bucket array: for each bucket index its chain, head first. -/
abbrev user_ht_t := Nat → List user_db_entry_t

/-- The per-connection session. -/
structure sasl_conn_t where
  username : Option (List Nat)
  config : Option (List Nat)
  deriving DecidableEq, Repr

/-- The part of `struct stat` the code compares. -/
structure stat_t where
  st_mtime : Int
  deriving DecidableEq, Repr

/-- The static variables of `isasl.c`. -/
structure isasl_globals where
  user_ht : Option user_ht_t
  prev_stat : stat_t

/-- What one call sees of the outside world. -/
structure world where
  ISASL_PWFILE : Option String
  fopen : String → Option (List Nat)
  stat : Option String → Option stat_t
  calloc_ok : Bool

def n_uht_buckets : Nat := 12289

def PLAIN : List Nat := [80, 76, 65, 73, 78]

/-! ## The credential table -/

/-- The trimming loop of `kill_whitey`, from index `i` downwards. -/
def kill_whitey_loop (s : List Nat) : Nat → List Nat
  | 0 => s
  | i + 1 =>
    if isspace (s.getD (i + 1) 0) then kill_whitey_loop (s.set (i + 1) 0) i
    else s

def kill_whitey (s : List Nat) : List Nat := kill_whitey_loop s (strlen s - 1)

/-- The bucket of a username; `hash` is the function of `hash.h`, a `uint32_t`. -/
def u_hash_key (hash : List Nat → Nat → Nat → Nat) (u : List Nat) : Nat :=
  (hash (cstr u) (strlen u) 0 % 2 ^ 32) % n_uht_buckets

/-- The chain walk of `find_pw`. -/
def find_entry (u : List Nat) : List user_db_entry_t → Option user_db_entry_t
  | [] => none
  | e :: next => if strcmp e.username u ≠ 0 then find_entry u next else some e

/-- The result is `none` when `assert(user_ht)` fails; otherwise the password and
config of the entry found, if any. -/
def find_pw (hash : List Nat → Nat → Nat → Nat) (user_ht : Option user_ht_t)
    (u : List Nat) : Option (Option (List Nat × Option (List Nat))) :=
  match user_ht with
  | none => none
  | some ht =>
    match find_entry u (ht (u_hash_key hash u)) with
    | some e => some (some (e.password, e.config))
    | none => some none

def store_pw (hash : List Nat → Nat → Nat → Nat) (ht : user_ht_t)
    (u p : List Nat) (cfg : Option (List Nat)) : user_ht_t :=
  let e : user_db_entry_t := ⟨strdup u, strdup p, cfg.map strdup⟩
  let h := u_hash_key hash u
  fun i => if i = h then e :: ht i else ht i

/-- The arguments `uname`, `p`, `cfg` that lines 132-156 compute from the buffer. -/
def parse_line (up : List Nat) : List Nat × List Nat × Option (List Nat) :=
  let up1 := kill_whitey up
  let p := skip_while (fun c => !isspace c) up1 0
  if up1.getD p 0 ≠ 0 then
    let up2 := up1.set p 0
    let p := skip_while isspace up2 (p + 1)
    let cfg := skip_while (fun c => !isspace c) up2 p
    if up2.getD cfg 0 ≠ 0 then
      let up3 := up2.set cfg 0
      let cfg := skip_while (fun _ => isspace (up3.getD p 0)) up3 (cfg + 1)
      (cstr up3, cstr (up3.drop p), some (cstr (up3.drop cfg)))
    else
      (cstr up2, cstr (up2.drop p), some (cstr (up2.drop cfg)))
  else
    (cstr up1, cstr (up1.drop p), none)

/-- The body of the read loop for one buffer `up`. -/
def process_line (hash : List Nat → Nat → Nat → Nat) (ht : user_ht_t)
    (up : List Nat) : user_ht_t :=
  if up.getD 0 0 ≠ 35 then
    if strlen (parse_line up).1 > 0 then
      store_pw hash ht (parse_line up).1 (parse_line up).2.1 (parse_line up).2.2
    else ht
  else ht

/-- The loop `while (fgets(up, sizeof(up), sfile))` with `char up[128]`. -/
def read_lines (hash : List Nat → Nat → Nat → Nat) :
    Nat → List Nat → user_ht_t → user_ht_t
  | 0, _, ht => ht
  | fuel + 1, sfile, ht =>
    match fgets 128 sfile with
    | none => ht
    | some (up, rest) => read_lines hash fuel rest (process_line hash ht up)

/-- The freshly allocated bucket array. -/
def empty_ht : user_ht_t := fun _ => []

/-- The table `new_ut` that `load_user_db` builds from the content of the file;
every `fgets` consumes a byte, so the length of the file bounds the iterations. -/
def build_table (hash : List Nat → Nat → Nat → Nat) (file : List Nat) : user_ht_t :=
  read_lines hash file.length file empty_ht

def load_user_db (hash : List Nat → Nat → Nat → Nat) (w : world)
    (g : isasl_globals) : sasl_result × isasl_globals :=
  match w.ISASL_PWFILE with
  | none => (sasl_result.SASL_FAIL, g)
  | some filename =>
    match w.fopen filename with
    | none => (sasl_result.SASL_FAIL, g)
    | some file =>
      if w.calloc_ok then
        (sasl_result.SASL_OK, { g with user_ht := some (build_table hash file) })
      else (sasl_result.SASL_NOMEM, g)

def isasl_is_fresh (w : world) (g : isasl_globals) : Bool × isasl_globals :=
  match w.stat w.ISASL_PWFILE with
  | none => (false, g)
  | some st => (decide (g.prev_stat.st_mtime = st.st_mtime), { g with prev_stat := st })

/-! ## The session -/

def sasl_server_new : sasl_conn_t := ⟨none, none⟩

/-- The pair is the return value and the config pointer written by `find_pw`;
`none` when `assert(user_ht)` fails. -/
def check_up (hash : List Nat → Nat → Nat → Nat) (user_ht : Option user_ht_t)
    (username password : List Nat) : Option (Bool × Option (List Nat)) :=
  match find_pw hash user_ht username with
  | none => none
  | some none => some (false, none)
  | some (some (pw, cfg)) => some (decide (strcmp password pw = 0), cfg)

/-- The conversion of a `size_t` value to `int`. -/
def int_of_size_t (n : Int) : Int :=
  if n % 2 ^ 32 < 2 ^ 31 then n % 2 ^ 32 else n % 2 ^ 32 - 2 ^ 32

/-- What a returning call of `sasl_server_start` leaves behind. -/
structure start_result where
  rv : sasl_result
  conn : sasl_conn_t
  serverout : List Nat
  serveroutlen : Nat
  deriving DecidableEq, Repr

/-- The buffer `clientin` holds `clientinlen` bytes and is followed by a NUL.
The result is `none` when the process aborts. -/
def sasl_server_start (hash : List Nat → Nat → Nat → Nat) (user_ht : Option user_ht_t)
    (conn : sasl_conn_t) (mech clientin : List Nat) : Option start_result :=
  let clientinlen := clientin.length
  if strcmp mech PLAIN = 0 then
    if clientinlen > 2 ∧ clientinlen < 128 ∧ clientin.getD 0 0 = 0 then
      let username := clientin.drop 1
      let pwlen : Int :=
        int_of_size_t (((clientinlen : Int) - 2 - (strlen username : Int)) % 2 ^ 64)
      if pwlen > 0 then
        let password :=
          (clientin.drop (2 + strlen username)).take pwlen.toNat ++ [0]
        match check_up hash user_ht username password with
        | none => none
        | some (false, _) => some ⟨sasl_result.SASL_FAIL, conn, [], 0⟩
        | some (true, none) => none
        | some (true, some cfg) =>
          some ⟨sasl_result.SASL_OK, ⟨some (strdup username), some (strdup cfg)⟩, [], 0⟩
      else some ⟨sasl_result.SASL_FAIL, conn, [], 0⟩
    else some ⟨sasl_result.SASL_FAIL, conn, [], 0⟩
  else some ⟨sasl_result.SASL_FAIL, conn, [], 0⟩

/-- The return value and the pointer stored through `pvalue` (`none` for a null
pointer or when nothing is stored). -/
def sasl_getprop (conn : sasl_conn_t) (propnum : sasl_prop) :
    sasl_result × Option (List Nat) :=
  match propnum with
  | sasl_prop.SASL_USERNAME => (sasl_result.SASL_OK, conn.username)
  | sasl_prop.ISASL_CONFIG => (sasl_result.SASL_OK, conn.config)
  | sasl_prop.other _ => (sasl_result.SASL_BADPARAM, none)

/-- The bytes of an ASCII text. -/
def bytes (s : String) : List Nat := s.toList.map Char.toNat

/-- A small checksum standing in for the hash function in concrete checks. -/
def test_hash (u : List Nat) (_ _ : Nat) : Nat := u.sum

/-! ## The reference lookup over the lines of the file -/

/-- The buffers the read loop receives from `fgets`, in order (each of at most 127
bytes). -/
def file_lines : Nat → List Nat → List (List Nat)
  | 0, _ => []
  | fuel + 1, sfile =>
    match fgets 128 sfile with
    | none => []
    | some (up, rest) => up :: file_lines fuel rest

/-- The record a line parses to: none for a comment line and for a line whose
parsed username is empty. -/
def line_record (up : List Nat) : Option user_db_entry_t :=
  if up.getD 0 0 = 35 then none
  else if (parse_line up).1 = [] then none
  else some ⟨(parse_line up).1, (parse_line up).2.1, (parse_line up).2.2⟩

/-- The table after `store_pw` of the strings of the record `e`, which are C strings. -/
def insert_entry (hash : List Nat → Nat → Nat → Nat) (ht : user_ht_t)
    (e : user_db_entry_t) : user_ht_t :=
  fun i => if i = u_hash_key hash e.username then e :: ht i else ht i

/-- The strings of a record are C strings: none contains a NUL. -/
def entry_is_cstrings (e : user_db_entry_t) : Prop :=
  (∀ x ∈ e.username, x ≠ 0) ∧ (∀ x ∈ e.password, x ≠ 0) ∧
    ∀ c, e.config = some c → ∀ x ∈ c, x ≠ 0

/-- Every record of every chain holds C strings. -/
def table_is_cstrings (ht : user_ht_t) : Prop :=
  ∀ i, ∀ e ∈ ht i, entry_is_cstrings e

/-! ## The rest of the session interface -/

set_option linter.unusedVariables false in
/-- The result string and the length stored through `plen` (`pcount` is never
written); `none` when one of the three asserts on `prefix`, `sep` and `suffix`
fails.  The arguments `conn` and `user` are not read. -/
def sasl_listmech (conn : sasl_conn_t) (user : Option (List Nat))
    (pfx sep suffix : List Nat) : Option (sasl_result × List Nat × Nat) :=
  if strcmp pfx [] = 0 ∧ strcmp sep [32] = 0 ∧ strcmp suffix [] = 0 then
    some (sasl_result.SASL_OK, PLAIN, strlen PLAIN)
  else none

/-- The local `pwlen` of `sasl_server_start` (line 295). -/
def plain_pwlen (clientin : List Nat) : Int :=
  int_of_size_t (((clientin.length : Int) - 2 - (strlen (clientin.drop 1) : Int)) % 2 ^ 64)

/-- The local buffer `password` of `sasl_server_start` after the terminator write
and the copy (lines 297-298), up to and including its terminator. -/
def plain_password (clientin : List Nat) : List Nat :=
  (clientin.drop (2 + strlen (clientin.drop 1))).take (plain_pwlen clientin).toNat ++ [0]

/-- The sessions on which `sasl_server_start` has never returned `SASL_OK`: a fresh
one, and one that a returning call has left without `SASL_OK`. -/
inductive never_authenticated : sasl_conn_t → Prop
  | fresh : never_authenticated sasl_server_new
  | failed_start (hash : List Nat → Nat → Nat → Nat) (user_ht : Option user_ht_t)
      (conn : sasl_conn_t) (mech clientin : List Nat) (r : start_result) :
      never_authenticated conn →
      sasl_server_start hash user_ht conn mech clientin = some r →
      r.rv ≠ sasl_result.SASL_OK → never_authenticated r.conn

/-- What holds of every record of a loaded table: the username is non-empty, free
of whitespace and does not begin with `#`; the password is free of whitespace;
the config is null exactly when the password is the empty string. -/
def record_wellformed (e : user_db_entry_t) : Prop :=
  e.username ≠ [] ∧ (∀ x ∈ e.username, isspace x = false) ∧ e.username.head? ≠ some 35 ∧
  (∀ x ∈ e.password, isspace x = false) ∧ (e.config = none ↔ e.password = [])

/-! ## Lookups running against a reload -/

/-- The variables guarded by `uhash_lock`, with the bookkeeping of the memory they
point to: the tables are numbered in the order they are installed, `generation`
is the number of the table `user_ht` points to, and `freed` lists the tables
that `free_user_ht` has released. -/
structure shared_store where
  user_ht : Option user_ht_t
  generation : Nat
  freed : List Nat

/-- The critical section of `load_user_db` (lines 169-172): `free_user_ht()` releases
the current table, if there is one, then `user_ht = new_ut`. -/
def swap_user_ht (new_ut : user_ht_t) (s : shared_store) : shared_store :=
  match s.user_ht with
  | none => ⟨some new_ut, s.generation + 1, s.freed⟩
  | some _ => ⟨some new_ut, s.generation + 1, s.generation :: s.freed⟩

/-- Where a thread stands inside a PLAIN call of `sasl_server_start`: before
`check_up`; after `check_up` returned true and released the lock, holding the
pointer `cfg` into the table numbered `generation`; returned; aborted (failed
assert or `strdup(NULL)`); or having read a record of a released table. -/
inductive lookup_thread
  | at_start (conn : sasl_conn_t) (clientin : List Nat)
  | after_check_up (conn : sasl_conn_t) (username : List Nat) (cfg : Option (List Nat))
      (generation : Nat)
  | returned (r : start_result)
  | aborted
  | read_freed_table
  deriving DecidableEq, Repr

/-- Lines 288-300 of `sasl_server_start` up to the return of `check_up`, whose body
(lines 270-273) is one critical section: `find_pw` stores in `cfg` a pointer
into the current table. -/
def lookup_check_up (hash : List Nat → Nat → Nat → Nat) (s : shared_store)
    (conn : sasl_conn_t) (clientin : List Nat) : lookup_thread :=
  if clientin.length > 2 ∧ clientin.length < 128 ∧ clientin.getD 0 0 = 0 then
    if plain_pwlen clientin > 0 then
      match check_up hash s.user_ht (clientin.drop 1) (plain_password clientin) with
      | none => lookup_thread.aborted
      | some (false, _) => lookup_thread.returned ⟨sasl_result.SASL_FAIL, conn, [], 0⟩
      | some (true, cfg) => lookup_thread.after_check_up conn (clientin.drop 1) cfg s.generation
    else lookup_thread.returned ⟨sasl_result.SASL_FAIL, conn, [], 0⟩
  else lookup_thread.returned ⟨sasl_result.SASL_FAIL, conn, [], 0⟩

/-- Lines 301-313 of `sasl_server_start`, outside the lock: `strdup(cfg)` reads the
config that `cfg` points to, inside the table numbered `generation`. -/
def lookup_strdup (s : shared_store) (username : List Nat) (cfg : Option (List Nat))
    (generation : Nat) : lookup_thread :=
  match cfg with
  | none => lookup_thread.aborted
  | some c =>
    if generation ∈ s.freed then lookup_thread.read_freed_table
    else lookup_thread.returned
      ⟨sasl_result.SASL_OK, ⟨some (strdup username), some (strdup c)⟩, [], 0⟩

/-- What the scheduler lets run next: the `check_up` part of lookup thread `tid`,
its part after `check_up`, or a reload of the given file. -/
inductive sched_event
  | run_check_up (tid : Nat)
  | run_strdup (tid : Nat)
  | run_reload (file : List Nat)
  deriving DecidableEq, Repr

/-- The store and the lookup threads. -/
structure lookup_system where
  store : shared_store
  threads : List lookup_thread

/-- One lock-delimited step of the system. -/
def sched_step (hash : List Nat → Nat → Nat → Nat) (sys : lookup_system)
    (ev : sched_event) : lookup_system :=
  match ev with
  | sched_event.run_check_up tid =>
    match sys.threads.get? tid with
    | some (lookup_thread.at_start conn clientin) =>
      { sys with threads := sys.threads.set tid (lookup_check_up hash sys.store conn clientin) }
    | _ => sys
  | sched_event.run_strdup tid =>
    match sys.threads.get? tid with
    | some (lookup_thread.after_check_up _ username cfg generation) =>
      { sys with threads := sys.threads.set tid (lookup_strdup sys.store username cfg generation) }
    | _ => sys
  | sched_event.run_reload file =>
    { sys with store := swap_user_ht (build_table hash file) sys.store }

/-- The system after a schedule. -/
def run_schedule (hash : List Nat → Nat → Nat → Nat) (sys : lookup_system)
    (schedule : List sched_event) : lookup_system :=
  schedule.foldl (sched_step hash) sys

/-! ## C strings -/

theorem cstr_of_nulfree {s : List Nat} (h : ∀ x ∈ s, x ≠ 0) : cstr s = s := by
  unfold cstr
  rw [List.takeWhile_eq_self_iff]
  intro x hx
  simpa using h x hx

theorem cstr_nulfree (s : List Nat) : ∀ x ∈ cstr s, x ≠ 0 := by
  intro x hx
  have := List.mem_takeWhile_imp hx
  simpa using this

theorem cstr_idem (s : List Nat) : cstr (cstr s) = cstr s :=
  cstr_of_nulfree (cstr_nulfree s)

theorem cstr_append_zero {a : List Nat} (h : ∀ x ∈ a, x ≠ 0) (b : List Nat) :
    cstr (a ++ 0 :: b) = a := by
  unfold cstr
  rw [List.takeWhile_append_of_pos (by intro x hx; simpa using h x hx)]
  simp

theorem strcmp_eq_zero_iff (a b : List Nat) : strcmp a b = 0 ↔ cstr a = cstr b := by
  induction a generalizing b with
  | nil =>
    cases b with
    | nil => simp [strcmp, cstr]
    | cons y t =>
      by_cases hy : y = 0
      · simp [strcmp, cstr, hy]
      · simp [strcmp, cstr, hy]
  | cons x s ih =>
    cases b with
    | nil =>
      by_cases hx : x = 0
      · simp [strcmp, cstr, hx]
      · simp [strcmp, cstr, hx]
    | cons y t =>
      by_cases hxy : x = y
      · subst hxy
        by_cases hx : x = 0
        · simp [strcmp, cstr, hx]
        · have := ih t
          simp [strcmp, hx, this, cstr]
      · by_cases hx : x = 0
        · subst hx
          have hy : ¬ y = 0 := fun h => hxy h.symm
          by_cases hlt : 0 < y
          · simp [strcmp, cstr, hxy, hy, hlt]
          · omega
        · by_cases hy : y = 0
          · subst hy
            simp [strcmp, cstr, hxy, hx]
          · by_cases hlt : x < y
            · simp [strcmp, cstr, hxy, hx, hy, hlt]
            · simp [strcmp, cstr, hxy, hx, hy, hlt]

theorem strcmp_cstr_right (a b : List Nat) : strcmp a (cstr b) = 0 ↔ strcmp a b = 0 := by
  rw [strcmp_eq_zero_iff, strcmp_eq_zero_iff, cstr_idem]

theorem cstr_append_nul (l : List Nat) : cstr (l ++ [0]) = cstr l := by
  induction l with
  | nil => simp [cstr]
  | cons x t ih =>
    by_cases hx : x = 0
    · simp [cstr, hx]
    · simp only [cstr] at ih
      simp [cstr, hx, ih]

theorem strlen_le_length (s : List Nat) : strlen s ≤ s.length := by
  unfold strlen cstr
  exact (List.takeWhile_sublist _).length_le

/-! ## Lookup ignores what follows the terminating NUL of the key -/

theorem u_hash_key_cstr (hash : List Nat → Nat → Nat → Nat) (u : List Nat) :
    u_hash_key hash (cstr u) = u_hash_key hash u := by
  simp [u_hash_key, strlen, cstr_idem]

theorem find_entry_cstr (u : List Nat) (l : List user_db_entry_t) :
    find_entry (cstr u) l = find_entry u l := by
  induction l with
  | nil => rfl
  | cons e t ih =>
    have h := strcmp_cstr_right e.username u
    by_cases h0 : strcmp e.username u = 0
    · simp [find_entry, h0, h.mpr h0]
    · have h1 : ¬ strcmp e.username (cstr u) = 0 := fun hh => h0 (h.mp hh)
      simp [find_entry, h0, h1, ih]

theorem find_pw_cstr (hash : List Nat → Nat → Nat → Nat) (ht : Option user_ht_t)
    (u : List Nat) : find_pw hash ht (cstr u) = find_pw hash ht u := by
  cases ht with
  | none => rfl
  | some t => simp [find_pw, u_hash_key_cstr, find_entry_cstr]

/-! ## The length arithmetic of `sasl_server_start` -/

theorem int_of_size_t_pwlen (len ulen : Nat) (h1 : 2 < len) (h2 : len < 128)
    (h3 : ulen + 1 ≤ len) :
    int_of_size_t (((len : Int) - 2 - (ulen : Int)) % 2 ^ 64) = (len : Int) - 2 - (ulen : Int) := by
  unfold int_of_size_t
  norm_num
  omega

/-- On the PLAIN path with a well-formed length, the call is decided by `check_up`
on the username and on the bytes that follow the username's NUL. -/
theorem sasl_server_start_plain (hash : List Nat → Nat → Nat → Nat)
    (user_ht : Option user_ht_t) (conn : sasl_conn_t) (clientin : List Nat)
    (h1 : 2 < clientin.length) (h2 : clientin.length < 128) (h3 : clientin.getD 0 0 = 0)
    (h4 : 2 + strlen (clientin.drop 1) < clientin.length) :
    sasl_server_start hash user_ht conn PLAIN clientin =
      match check_up hash user_ht (clientin.drop 1)
          (clientin.drop (2 + strlen (clientin.drop 1)) ++ [0]) with
      | none => none
      | some (false, _) => some ⟨sasl_result.SASL_FAIL, conn, [], 0⟩
      | some (true, none) => none
      | some (true, some cfg) =>
        some ⟨sasl_result.SASL_OK, ⟨some (strdup (clientin.drop 1)), some (strdup cfg)⟩, [], 0⟩ := by
  have hpw := int_of_size_t_pwlen clientin.length (strlen (clientin.drop 1)) h1 h2 (by omega)
  have hP : strcmp PLAIN PLAIN = 0 := by decide
  unfold sasl_server_start
  simp only [hP, hpw, if_true, h1, h2, h3, gt_iff_lt, and_self]
  have hpos : (0 : Int) < (clientin.length : Int) - 2 - (strlen (clientin.drop 1) : Int) := by
    omega
  rw [if_pos hpos]
  have htake : List.take ((clientin.length : Int) - 2 - (strlen (clientin.drop 1) : Int)).toNat
      (clientin.drop (2 + strlen (clientin.drop 1))) =
      clientin.drop (2 + strlen (clientin.drop 1)) := by
    apply List.take_of_length_le
    rw [List.length_drop]
    omega
  rw [htake]

/-- Outside the well-formed PLAIN payloads the call returns `SASL_FAIL` and
leaves the session as it was. -/
theorem sasl_server_start_malformed (hash : List Nat → Nat → Nat → Nat)
    (user_ht : Option user_ht_t) (conn : sasl_conn_t) (mech clientin : List Nat)
    (h : ¬ (2 < clientin.length ∧ clientin.length < 128 ∧ clientin.getD 0 0 = 0 ∧
      2 + strlen (clientin.drop 1) < clientin.length)) :
    sasl_server_start hash user_ht conn mech clientin =
      some ⟨sasl_result.SASL_FAIL, conn, [], 0⟩ := by
  unfold sasl_server_start
  by_cases hm : strcmp mech PLAIN = 0
  · rw [if_pos hm]
    by_cases hg : clientin.length > 2 ∧ clientin.length < 128 ∧ clientin.getD 0 0 = 0
    · rw [if_pos hg]
      have hl := strlen_le_length (clientin.drop 1)
      rw [List.length_drop] at hl
      have hpw := int_of_size_t_pwlen clientin.length (strlen (clientin.drop 1))
        hg.1 hg.2.1 (by omega)
      simp only [hpw]
      have hn : ¬ (0 : Int) < (clientin.length : Int) - 2 - (strlen (clientin.drop 1) : Int) := by
        intro hpos
        apply h
        refine ⟨hg.1, hg.2.1, hg.2.2, ?_⟩
        omega
      simp only [gt_iff_lt, hn, if_false]
    · rw [if_neg hg]
  · rw [if_neg hm]

/-! ## Records of a loaded table are C strings -/

theorem find_entry_mem (u : List Nat) (l : List user_db_entry_t) (e : user_db_entry_t)
    (h : find_entry u l = some e) : e ∈ l ∧ strcmp e.username u = 0 := by
  induction l with
  | nil => simp [find_entry] at h
  | cons a t ih =>
    by_cases h0 : strcmp a.username u = 0
    · simp [find_entry, h0] at h
      subst h
      exact ⟨List.mem_cons_self _ _, h0⟩
    · simp [find_entry, h0] at h
      exact ⟨List.mem_cons_of_mem _ (ih h).1, (ih h).2⟩

theorem store_pw_is_cstrings (hash : List Nat → Nat → Nat → Nat) (ht : user_ht_t)
    (u p : List Nat) (cfg : Option (List Nat)) (h : table_is_cstrings ht) :
    table_is_cstrings (store_pw hash ht u p cfg) := by
  intro i e he
  unfold store_pw at he
  by_cases hi : i = u_hash_key hash u
  · simp only [hi, if_true, List.mem_cons] at he
    rcases he with he | he
    · subst he
      refine ⟨cstr_nulfree u, cstr_nulfree p, ?_⟩
      intro c hc
      cases cfg with
      | none => simp at hc
      | some c0 =>
        simp only [Option.map_some', Option.some.injEq] at hc
        subst hc
        exact cstr_nulfree c0
    · exact h _ e he
  · simp only [hi, if_false] at he
    exact h i e he

theorem process_line_is_cstrings (hash : List Nat → Nat → Nat → Nat) (ht : user_ht_t)
    (up : List Nat) (h : table_is_cstrings ht) :
    table_is_cstrings (process_line hash ht up) := by
  unfold process_line
  split_ifs
  · exact store_pw_is_cstrings hash ht _ _ _ h
  · exact h
  · exact h

theorem read_lines_is_cstrings (hash : List Nat → Nat → Nat → Nat) (fuel : Nat) :
    ∀ (sfile : List Nat) (ht : user_ht_t), table_is_cstrings ht →
      table_is_cstrings (read_lines hash fuel sfile ht) := by
  induction fuel with
  | zero => intro sfile ht h; exact h
  | succ n ih =>
    intro sfile ht h
    unfold read_lines
    cases hf : fgets 128 sfile with
    | none => exact h
    | some r => exact ih r.2 _ (process_line_is_cstrings hash ht r.1 h)

theorem build_table_is_cstrings (hash : List Nat → Nat → Nat → Nat) (file : List Nat) :
    table_is_cstrings (build_table hash file) :=
  read_lines_is_cstrings hash _ _ _ (fun _ _ he => by simp [empty_ht] at he)

theorem find_pw_is_cstrings (hash : List Nat → Nat → Nat → Nat) (ht : user_ht_t)
    (h : table_is_cstrings ht) (u pw c : List Nat)
    (hf : find_pw hash (some ht) u = some (some (pw, some c))) : ∀ x ∈ c, x ≠ 0 := by
  unfold find_pw at hf
  simp only at hf
  cases he : find_entry u (ht (u_hash_key hash u)) with
  | none => simp [he] at hf
  | some e =>
    simp only [he, Option.some.injEq, Prod.mk.injEq] at hf
    exact (h _ e (find_entry_mem _ _ _ he).1).2.2 c hf.2

theorem drop_payload (u p : List Nat) : (0 :: u ++ 0 :: p).drop (2 + u.length) = p := by
  have h : 0 :: u ++ 0 :: p = (0 :: u ++ [0]) ++ p := by simp
  rw [h]
  apply List.drop_left'
  simp
  omega

/-! ## Claims about the session -/

/-- C1 (as stated, refuted): with the table loaded from `alice secretpw cfg1`, the
payload NUL alice NUL secretpw NUL x is accepted although the ten bytes after
the username are not the stored password. -/
theorem sasl_server_start_accepts_bytes_after_nul :
    (sasl_server_start test_hash (some (build_table test_hash (bytes "alice secretpw cfg1\n")))
        sasl_server_new PLAIN (0 :: bytes "alice" ++ 0 :: bytes "secretpw" ++ [0, 120])
      = some ⟨sasl_result.SASL_OK, ⟨some (bytes "alice"), some (bytes "cfg1")⟩, [], 0⟩) ∧
    find_pw test_hash (some (build_table test_hash (bytes "alice secretpw cfg1\n")))
        (cstr ((0 :: bytes "alice" ++ 0 :: bytes "secretpw" ++ [0, 120]).drop 1))
      = some (some (bytes "secretpw", some (bytes "cfg1"))) ∧
    (0 :: bytes "alice" ++ 0 :: bytes "secretpw" ++ [0, 120]).drop
        (2 + strlen ((0 :: bytes "alice" ++ 0 :: bytes "secretpw" ++ [0, 120]).drop 1))
      = bytes "secretpw" ++ [0, 120] ∧
    bytes "secretpw" ++ [0, 120] ≠ bytes "secretpw" := by
  decide

/-- C1 (amended): a PLAIN call returns `SASL_OK` only if the table holds a record
for the username parsed from the payload and the bytes that follow the username's
NUL, read as a C string (up to their first NUL), equal that record's stored
password; if the user is absent or that C string differs from the stored password,
the call returns `SASL_FAIL` and leaves the session untouched. -/
theorem sasl_server_start_ok_only_if_password_matches
    (hash : List Nat → Nat → Nat → Nat) (ht : user_ht_t) (conn : sasl_conn_t)
    (payload : List Nat) :
    (∀ r, sasl_server_start hash (some ht) conn PLAIN payload = some r →
        r.rv = sasl_result.SASL_OK →
        ∃ pw cfg, find_pw hash (some ht) (cstr (payload.drop 1)) = some (some (pw, cfg)) ∧
          cstr (payload.drop (2 + strlen (payload.drop 1))) = cstr pw) ∧
    ((find_pw hash (some ht) (cstr (payload.drop 1)) = some none ∨
        ∃ pw cfg, find_pw hash (some ht) (cstr (payload.drop 1)) = some (some (pw, cfg)) ∧
          cstr (payload.drop (2 + strlen (payload.drop 1))) ≠ cstr pw) →
      sasl_server_start hash (some ht) conn PLAIN payload =
        some ⟨sasl_result.SASL_FAIL, conn, [], 0⟩) := by
  by_cases hg : 2 < payload.length ∧ payload.length < 128 ∧ payload.getD 0 0 = 0 ∧
      2 + strlen (payload.drop 1) < payload.length
  · rw [sasl_server_start_plain hash (some ht) conn payload hg.1 hg.2.1 hg.2.2.1 hg.2.2.2]
    rw [find_pw_cstr]
    unfold check_up
    generalize payload.drop (2 + strlen (payload.drop 1)) = supplied
    generalize payload.drop 1 = username
    cases hf : find_pw hash (some ht) username with
    | none => simp [find_pw] at hf; split at hf <;> simp at hf
    | some o =>
      cases o with
      | none => simp
      | some pc =>
        obtain ⟨pw, cfg⟩ := pc
        have hs := strcmp_eq_zero_iff (supplied ++ [0]) pw
        rw [cstr_append_nul] at hs
        by_cases hc : strcmp (supplied ++ [0]) pw = 0
        · have hcs := hs.mp hc
          cases cfg with
          | none => simp [hc, hcs]
          | some c => simp [hc, hcs]
        · have hcs : ¬ cstr supplied = cstr pw := fun hh => hc (hs.mpr hh)
          simp [hc, hcs]
  · rw [sasl_server_start_malformed hash (some ht) conn PLAIN payload hg]
    constructor
    · intro r hr hok
      simp only [Option.some.injEq] at hr
      subst hr
      simp at hok
    · intro _
      rfl

/-- C2: when the table loaded from a credential file maps the username `u` to a
non-empty password `p` and a config `c`, and `2 + |u| + |p| <= 127`, the PLAIN
call with payload NUL u NUL p returns `SASL_OK`, after which `sasl_getprop`
yields `u` for `SASL_USERNAME` and `c` for `ISASL_CONFIG`. -/
theorem sasl_server_start_authenticates (hash : List Nat → Nat → Nat → Nat)
    (file u p c : List Nat) (conn : sasl_conn_t)
    (hfind : find_pw hash (some (build_table hash file)) u = some (some (p, some c)))
    (hu : ∀ x ∈ u, x ≠ 0) (hp : p ≠ []) (hlen : 2 + u.length + p.length ≤ 127) :
    ∃ r, sasl_server_start hash (some (build_table hash file)) conn PLAIN (0 :: u ++ 0 :: p)
        = some r ∧
      r.rv = sasl_result.SASL_OK ∧
      sasl_getprop r.conn sasl_prop.SASL_USERNAME = (sasl_result.SASL_OK, some u) ∧
      sasl_getprop r.conn sasl_prop.ISASL_CONFIG = (sasl_result.SASL_OK, some c) := by
  have hplen : 0 < p.length := List.length_pos.mpr hp
  have hd1 : (0 :: u ++ 0 :: p).drop 1 = u ++ 0 :: p := by simp
  have hsl : strlen (u ++ 0 :: p) = u.length := by
    unfold strlen
    rw [cstr_append_zero hu]
  have hlen2 : (0 :: u ++ 0 :: p).length = 2 + u.length + p.length := by
    simp
    omega
  have hc : ∀ x ∈ c, x ≠ 0 :=
    find_pw_is_cstrings hash _ (build_table_is_cstrings hash file) u p c hfind
  have hfind2 : find_pw hash (some (build_table hash file)) (u ++ 0 :: p)
      = some (some (p, some c)) := by
    rw [← find_pw_cstr, cstr_append_zero hu, hfind]
  have hcmp : strcmp (p ++ [0]) p = 0 := by
    rw [strcmp_eq_zero_iff, cstr_append_nul]
  rw [sasl_server_start_plain hash _ conn (0 :: u ++ 0 :: p) (by rw [hlen2]; omega)
    (by rw [hlen2]; omega) (by simp) (by rw [hd1, hsl, hlen2]; omega)]
  rw [hd1, hsl, drop_payload]
  unfold check_up
  rw [hfind2]
  simp only [hcmp, decide_True]
  refine ⟨_, rfl, rfl, ?_, ?_⟩
  · simp only [sasl_getprop, strdup]
    rw [cstr_append_zero hu]
  · simp only [sasl_getprop, strdup]
    rw [cstr_of_nulfree hc]

/-- The witness of C2: the file line `alice secretpw cfg1` and the payload
NUL alice NUL secretpw give identity alice and config cfg1. -/
theorem sasl_server_start_authenticates_witness :
    (find_pw test_hash (some (build_table test_hash (bytes "alice secretpw cfg1\n")))
        (bytes "alice") = some (some (bytes "secretpw", some (bytes "cfg1"))) ∧
      (∀ x ∈ bytes "alice", x ≠ 0) ∧ bytes "secretpw" ≠ [] ∧
      2 + (bytes "alice").length + (bytes "secretpw").length ≤ 127) ∧
    ∃ r, sasl_server_start test_hash
          (some (build_table test_hash (bytes "alice secretpw cfg1\n")))
          sasl_server_new PLAIN (0 :: bytes "alice" ++ 0 :: bytes "secretpw") = some r ∧
      r.rv = sasl_result.SASL_OK ∧
      sasl_getprop r.conn sasl_prop.SASL_USERNAME = (sasl_result.SASL_OK, some (bytes "alice")) ∧
      sasl_getprop r.conn sasl_prop.ISASL_CONFIG = (sasl_result.SASL_OK, some (bytes "cfg1")) :=
  ⟨⟨by decide, by decide, by decide, by decide⟩,
    sasl_server_start_authenticates test_hash (bytes "alice secretpw cfg1\n") (bytes "alice")
      (bytes "secretpw") (bytes "cfg1") sasl_server_new (by decide) (by decide) (by decide)
      (by decide)⟩

/-- C3 (the code departs from the claim): with the table loaded from the one-line
file `carol`, the PLAIN payload NUL carol NUL NUL passes the credential check
against the empty stored password and reaches `strdup(cfg)` with a null `cfg`:
the call does not return. -/
theorem sasl_server_start_null_config_aborts :
    find_pw test_hash (some (build_table test_hash (bytes "carol\n"))) (bytes "carol")
      = some (some ([], none)) ∧
    check_up test_hash (some (build_table test_hash (bytes "carol\n"))) (bytes "carol") [0, 0]
      = some (true, none) ∧
    sasl_server_start test_hash (some (build_table test_hash (bytes "carol\n")))
      sasl_server_new PLAIN (0 :: bytes "carol" ++ [0, 0]) = none := by
  decide

/-- C5: whenever `load_user_db` returns anything other than `SASL_OK`, the static
state is the one from before the call: the table is the same table, and every
lookup returns what it returned before. -/
theorem load_user_db_failure_keeps_table (hash : List Nat → Nat → Nat → Nat) (w : world)
    (g : isasl_globals) (h : (load_user_db hash w g).1 ≠ sasl_result.SASL_OK) :
    (load_user_db hash w g).2 = g ∧
    (load_user_db hash w g).2.user_ht = g.user_ht ∧
    ∀ u, find_pw hash (load_user_db hash w g).2.user_ht u = find_pw hash g.user_ht u := by
  have hg : (load_user_db hash w g).2 = g := by
    unfold load_user_db at h ⊢
    cases hf : w.ISASL_PWFILE with
    | none => rfl
    | some filename =>
      simp only [hf] at h ⊢
      cases ho : w.fopen filename with
      | none => rfl
      | some file =>
        simp only [ho] at h ⊢
        cases hc : w.calloc_ok with
        | false => simp
        | true => simp [hc] at h
  rw [hg]
  exact ⟨rfl, rfl, fun _ => rfl⟩

/-- The witness of C5: a reload whose file can no longer be opened, against a
store that holds the table of `alice secretpw cfg1`. -/
theorem load_user_db_failure_keeps_table_witness :
    (load_user_db test_hash ⟨some "isasl.pw", fun _ => none, fun _ => none, true⟩
        ⟨some (build_table test_hash (bytes "alice secretpw cfg1\n")), ⟨7⟩⟩).1
      ≠ sasl_result.SASL_OK ∧
    ((load_user_db test_hash ⟨some "isasl.pw", fun _ => none, fun _ => none, true⟩
        ⟨some (build_table test_hash (bytes "alice secretpw cfg1\n")), ⟨7⟩⟩).2
      = ⟨some (build_table test_hash (bytes "alice secretpw cfg1\n")), ⟨7⟩⟩ ∧
    (load_user_db test_hash ⟨some "isasl.pw", fun _ => none, fun _ => none, true⟩
        ⟨some (build_table test_hash (bytes "alice secretpw cfg1\n")), ⟨7⟩⟩).2.user_ht
      = some (build_table test_hash (bytes "alice secretpw cfg1\n")) ∧
    ∀ u, find_pw test_hash
        (load_user_db test_hash ⟨some "isasl.pw", fun _ => none, fun _ => none, true⟩
          ⟨some (build_table test_hash (bytes "alice secretpw cfg1\n")), ⟨7⟩⟩).2.user_ht u
      = find_pw test_hash (some (build_table test_hash (bytes "alice secretpw cfg1\n"))) u) :=
  ⟨by decide,
    load_user_db_failure_keeps_table test_hash
      ⟨some "isasl.pw", fun _ => none, fun _ => none, true⟩
      ⟨some (build_table test_hash (bytes "alice secretpw cfg1\n")), ⟨7⟩⟩ (by decide)⟩

/-- C10: a PLAIN call returns `SASL_FAIL` (and not `SASL_OK`) whenever the payload
length is at most 2 or at least 128, or byte 0 of the payload is not NUL, or the
password length `len - 2 - |username|` is not positive; hence a call that
returns `SASL_OK` has a payload length from 3 to 127. -/
theorem sasl_server_start_rejects_malformed (hash : List Nat → Nat → Nat → Nat)
    (ht : user_ht_t) (conn : sasl_conn_t) (payload : List Nat) :
    ((payload.length ≤ 2 ∨ 128 ≤ payload.length ∨ payload.getD 0 0 ≠ 0 ∨
        (payload.length : Int) - 2 - (strlen (payload.drop 1) : Int) ≤ 0) →
      sasl_server_start hash (some ht) conn PLAIN payload =
        some ⟨sasl_result.SASL_FAIL, conn, [], 0⟩) ∧
    (∀ r, sasl_server_start hash (some ht) conn PLAIN payload = some r →
      r.rv = sasl_result.SASL_OK → 3 ≤ payload.length ∧ payload.length ≤ 127) := by
  have key : (payload.length ≤ 2 ∨ 128 ≤ payload.length ∨ payload.getD 0 0 ≠ 0 ∨
        (payload.length : Int) - 2 - (strlen (payload.drop 1) : Int) ≤ 0) →
      sasl_server_start hash (some ht) conn PLAIN payload =
        some ⟨sasl_result.SASL_FAIL, conn, [], 0⟩ := by
    intro h
    apply sasl_server_start_malformed
    rintro ⟨h1, h2, h3, h4⟩
    rcases h with h | h | h | h
    · omega
    · omega
    · exact h h3
    · omega
  refine ⟨key, ?_⟩
  intro r hr hok
  by_contra hcon
  have hfail := key (by omega)
  rw [hfail] at hr
  simp only [Option.some.injEq] at hr
  subst hr
  simp at hok

/-! ## The table against the reference lookup -/

theorem parse_line_is_cstrings (up : List Nat) :
    cstr (parse_line up).1 = (parse_line up).1 ∧
    cstr (parse_line up).2.1 = (parse_line up).2.1 ∧
    (parse_line up).2.2.map cstr = (parse_line up).2.2 := by
  unfold parse_line
  simp only
  split_ifs <;> simp [cstr_idem]

theorem strlen_pos_iff (s : List Nat) (h : cstr s = s) : strlen s > 0 ↔ s ≠ [] := by
  unfold strlen
  rw [h]
  exact List.length_pos

theorem process_line_eq (hash : List Nat → Nat → Nat → Nat) (ht : user_ht_t)
    (up : List Nat) :
    process_line hash ht up =
      match line_record up with
      | none => ht
      | some e => insert_entry hash ht e := by
  obtain ⟨h1, h2, h3⟩ := parse_line_is_cstrings up
  unfold process_line line_record
  by_cases hc : up.getD 0 0 = 35
  · simp only [hc, ne_eq, not_true_eq_false, if_false, if_true]
  · by_cases hu : (parse_line up).1 = []
    · have : ¬ strlen (parse_line up).1 > 0 := by
        rw [strlen_pos_iff _ h1]
        simp [hu]
      simp only [hc, this, ne_eq, not_false_eq_true, if_false, if_true]
      rw [if_pos hu]
    · have : strlen (parse_line up).1 > 0 := by
        rw [strlen_pos_iff _ h1]
        exact hu
      simp only [hc, hu, this, if_true, if_false, ne_eq, not_false_eq_true]
      unfold store_pw insert_entry strdup
      simp only [h1, h2, h3]

theorem read_lines_eq_foldl (hash : List Nat → Nat → Nat → Nat) (fuel : Nat) :
    ∀ (sfile : List Nat) (ht : user_ht_t),
      read_lines hash fuel sfile ht =
        ((file_lines fuel sfile).filterMap line_record).foldl (insert_entry hash) ht := by
  induction fuel with
  | zero => intro sfile ht; rfl
  | succ n ih =>
    intro sfile ht
    unfold read_lines file_lines
    cases hf : fgets 128 sfile with
    | none => rfl
    | some r =>
      obtain ⟨up, rest⟩ := r
      simp only
      rw [ih, process_line_eq]
      cases hr : line_record up with
      | none => simp [List.filterMap_cons, hr]
      | some e => simp [List.filterMap_cons, hr]

theorem isspace_ne_zero {x : Nat} (h : isspace x = true) : x ≠ 0 := by
  intro h0
  subst h0
  simp [isspace] at h

theorem fgets_aux_line (n : Nat) :
    ∀ (a b : List Nat), (∀ x ∈ a, x ≠ 10) → a.length < n →
      fgets_aux n (a ++ 10 :: b) = (a ++ [10], b) := by
  induction n with
  | zero => intro a b _ hl; omega
  | succ n ih =>
    intro a b ha hl
    cases a with
    | nil => simp [fgets_aux]
    | cons x t =>
      have hx : x ≠ 10 := ha x (List.mem_cons_self _ _)
      have ht : ∀ y ∈ t, y ≠ 10 := fun y hy => ha y (List.mem_cons_of_mem _ hy)
      have hl2 : t.length < n := by simp at hl; omega
      simp [fgets_aux, hx, ih t b ht hl2]

theorem fgets_aux_long (n : Nat) :
    ∀ (a b : List Nat), (∀ x ∈ a, x ≠ 10) → n ≤ a.length →
      fgets_aux n (a ++ b) = (a.take n, a.drop n ++ b) := by
  induction n with
  | zero => intro a b _ _; simp [fgets_aux]
  | succ n ih =>
    intro a b ha hl
    cases a with
    | nil => simp at hl
    | cons x t =>
      have hx : x ≠ 10 := ha x (List.mem_cons_self _ _)
      have ht : ∀ y ∈ t, y ≠ 10 := fun y hy => ha y (List.mem_cons_of_mem _ hy)
      have hl2 : n ≤ t.length := by simp at hl; omega
      simp [fgets_aux, hx, ih t b ht hl2]

theorem fgets_aux_append (n : Nat) :
    ∀ (s : List Nat), (fgets_aux n s).1 ++ (fgets_aux n s).2 = s := by
  induction n with
  | zero => intro s; simp [fgets_aux]
  | succ n ih =>
    intro s
    cases s with
    | nil => simp [fgets_aux]
    | cons x t =>
      by_cases hx : x = 10
      · simp [fgets_aux, hx]
      · simp [fgets_aux, hx, ih t]

theorem fgets_consumes (sfile up rest : List Nat) (h : fgets 128 sfile = some (up, rest)) :
    rest.length < sfile.length := by
  cases sfile with
  | nil => simp [fgets] at h
  | cons x t =>
    simp only [fgets, Option.some.injEq] at h
    have happ := fgets_aux_append (128 - 1) (x :: t)
    rw [h] at happ
    simp only at happ
    have hne : up ≠ [] := by
      intro hup
      have h1 : (fgets_aux (128 - 1) (x :: t)).1 = up := by rw [h]
      by_cases hx : x = 10
      · simp [fgets_aux, hx] at h1
        rw [hup] at h1
        simp at h1
      · simp [fgets_aux, hx] at h1
        rw [hup] at h1
        simp at h1
    have hlen : (up ++ rest).length = (x :: t).length := by rw [happ]
    have hpos : 0 < up.length := List.length_pos.mpr hne
    rw [List.length_append] at hlen
    omega

/-- Any fuel that covers the length of the stream gives the same table: the
read loop ends by itself, at end of file. -/
theorem read_lines_fuel (hash : List Nat → Nat → Nat → Nat) (f1 : Nat) :
    ∀ (f2 : Nat) (sfile : List Nat) (ht : user_ht_t),
      sfile.length ≤ f1 → sfile.length ≤ f2 →
      read_lines hash f1 sfile ht = read_lines hash f2 sfile ht := by
  induction f1 with
  | zero =>
    intro f2 sfile ht h1 _
    have hs : sfile = [] := List.length_eq_zero.mp (by omega)
    subst hs
    cases f2 with
    | zero => rfl
    | succ m => simp [read_lines, fgets]
  | succ n ih =>
    intro f2 sfile ht h1 h2
    cases f2 with
    | zero =>
      have hs : sfile = [] := List.length_eq_zero.mp (by omega)
      subst hs
      simp [read_lines, fgets]
    | succ m =>
      unfold read_lines
      cases hf : fgets 128 sfile with
      | none => rfl
      | some r =>
        obtain ⟨up, rest⟩ := r
        have hc := fgets_consumes sfile up rest hf
        exact ih m rest _ (by omega) (by omega)

/-- One turn of the read loop on a stream whose first `fgets` delivers `up`. -/
theorem read_lines_step (hash : List Nat → Nat → Nat → Nat) (sfile up rest : List Nat)
    (ht : user_ht_t) (h : fgets 128 sfile = some (up, rest)) :
    read_lines hash sfile.length sfile ht =
      read_lines hash rest.length rest (process_line hash ht up) := by
  have hc := fgets_consumes sfile up rest h
  obtain ⟨n, hn⟩ : ∃ n, sfile.length = n + 1 := ⟨sfile.length - 1, by omega⟩
  rw [hn]
  simp only [read_lines, h]
  exact read_lines_fuel hash n rest.length rest _ (by omega) (le_refl _)

/-! ## The buffers of the read loop are the lines of the file -/

theorem getD_append_at (A : List Nat) (x : Nat) (R : List Nat) :
    (A ++ x :: R).getD A.length 0 = x := by
  rw [List.getD_append_right _ _ _ _ (le_refl _)]
  simp only [Nat.sub_self, List.getD_cons_zero]

theorem getD_append_end (A : List Nat) (n : Nat) :
    (A ++ List.replicate n 0).getD A.length 0 = 0 := by
  cases n with
  | zero =>
    rw [List.replicate_zero, List.append_nil]
    exact List.getD_eq_default _ _ (le_refl _)
  | succ m =>
    rw [List.replicate_succ]
    exact getD_append_at A 0 _

theorem set_append_at (A : List Nat) (x y : Nat) (R : List Nat) :
    (A ++ x :: R).set A.length y = A ++ y :: R := by
  rw [List.set_append_right _ _ (le_refl _)]
  simp only [Nat.sub_self, List.set_cons_zero]

theorem cstr_append_zeros {a : List Nat} (h : ∀ x ∈ a, x ≠ 0) (n : Nat) :
    cstr (a ++ List.replicate n 0) = a := by
  cases n with
  | zero =>
    rw [List.replicate_zero, List.append_nil]
    exact cstr_of_nulfree h
  | succ m =>
    rw [List.replicate_succ]
    exact cstr_append_zero h _

/-- The scan `while (*p && pred(*p)) p++` from the end of the prefix `A` runs over
`B`, whose bytes all pass, and stops at the head of `R`. -/
theorem skip_while_append (q : Nat → Bool) (A B R : List Nat)
    (hB : ∀ x ∈ B, (x != 0 && q x) = true)
    (hR : ∀ y ∈ R.head?, (y != 0 && q y) = false) :
    skip_while q (A ++ (B ++ R)) A.length = (A ++ B).length := by
  unfold skip_while
  rw [List.drop_left, List.takeWhile_append_of_pos hB]
  cases R with
  | nil => simp
  | cons y r =>
    have hy := hR y (by simp)
    rw [List.takeWhile_cons_of_neg (by simp [hy])]
    simp

/-! ## What `kill_whitey` does to a line -/

theorem kill_whitey_loop_trailing (b : List Nat) (l : Nat) (hl : isspace l = false)
    (t : List Nat) :
    ∀ (z : List Nat), (∀ x ∈ t, isspace x = true) →
      kill_whitey_loop ((b ++ [l]) ++ t ++ z) (b.length + t.length) =
        (b ++ [l]) ++ List.replicate t.length 0 ++ z := by
  induction t using List.reverseRecOn with
  | nil =>
    intro z _
    simp only [List.append_nil, List.length_nil, Nat.add_zero, List.replicate_zero]
    generalize hb : b.length = k
    cases k with
    | zero => rfl
    | succ n =>
      simp only [kill_whitey_loop]
      rw [← hb]
      have e : b ++ [l] ++ z = b ++ l :: z := by simp
      rw [e, getD_append_at, hl]
      simp
  | append_singleton t x ih =>
    intro z ht
    have hx : isspace x = true := ht x (by simp)
    have hlen : b.length + (t ++ [x]).length = (b.length + t.length) + 1 := by
      simp
      omega
    rw [hlen]
    simp only [kill_whitey_loop]
    have hidx : b.length + t.length + 1 = ((b ++ [l]) ++ t).length := by
      simp
      omega
    have e : (b ++ [l]) ++ (t ++ [x]) ++ z = ((b ++ [l]) ++ t) ++ x :: z := by simp
    rw [hidx, e, getD_append_at, if_pos hx, set_append_at]
    rw [ih (0 :: z) (fun y hy => ht y (by simp [hy]))]
    simp [List.replicate_succ']

/-- A line that ends in whitespace after a last non-whitespace byte loses exactly
that trailing whitespace. -/
theorem kill_whitey_trailing (body t : List Nat) (hne : body ≠ [])
    (hlast : isspace (body.getLast hne) = false) (hnul : ∀ x ∈ body, x ≠ 0)
    (ht : ∀ x ∈ t, isspace x = true) :
    kill_whitey (body ++ t) = body ++ List.replicate t.length 0 := by
  have hall : ∀ x ∈ body ++ t, x ≠ 0 := by
    intro x hx
    rcases List.mem_append.mp hx with h | h
    · exact hnul x h
    · exact isspace_ne_zero (ht x h)
  have hb := List.dropLast_concat_getLast hne
  have hblen : body.length = body.dropLast.length + 1 := by
    conv_lhs => rw [← hb]
    simp
  unfold kill_whitey strlen
  rw [cstr_of_nulfree hall]
  have hi : (body ++ t).length - 1 = body.dropLast.length + t.length := by
    rw [List.length_append]
    omega
  rw [hi]
  have h := kill_whitey_loop_trailing body.dropLast (body.getLast hne) hlast t [] ht
  rw [hb] at h
  simpa using h

/-- The byte at index 0 is never touched by `kill_whitey`. -/
theorem kill_whitey_loop_head (i : Nat) :
    ∀ (s : List Nat), (kill_whitey_loop s i).getD 0 0 = s.getD 0 0 := by
  induction i with
  | zero => intro s; rfl
  | succ n ih =>
    intro s
    simp only [kill_whitey_loop]
    split_ifs
    · rw [ih]
      cases s with
      | nil => rfl
      | cons x t => rfl
    · rfl

/-! ## What the parser computes from a line -/

theorem nonspace_pass {x : Nat} (h : x ≠ 0 ∧ isspace x = false) :
    (x != 0 && (fun c => !isspace c) x) = true := by
  simp [h.1, h.2]

theorem space_pass {x : Nat} (h : isspace x = true) : (x != 0 && isspace x) = true := by
  simp [h, isspace_ne_zero h]

theorem zeros_stop (q : Nat → Bool) (n : Nat) :
    ∀ y ∈ (List.replicate n 0).head?, (y != 0 && q y) = false := by
  intro y hy
  cases n with
  | zero => simp at hy
  | succ m =>
    simp [List.replicate_succ] at hy
    subst hy
    simp

theorem skip_while_zero (q : Nat → Bool) (B R : List Nat)
    (hB : ∀ x ∈ B, (x != 0 && q x) = true)
    (hR : ∀ y ∈ R.head?, (y != 0 && q y) = false) :
    skip_while q (B ++ R) 0 = B.length := by
  have h := skip_while_append q [] B R hB hR
  simpa using h

/-- A line that holds only a username and trailing whitespace. -/
theorem parse_line_username_only (u t : List Nat) (hune : u ≠ [])
    (hu : ∀ x ∈ u, x ≠ 0 ∧ isspace x = false) (ht : ∀ x ∈ t, isspace x = true) :
    parse_line (u ++ t) = (u, [], none) := by
  have hnul : ∀ x ∈ u, x ≠ 0 := fun x hx => (hu x hx).1
  have hkw : kill_whitey (u ++ t) = u ++ List.replicate t.length 0 :=
    kill_whitey_trailing u t hune (hu _ (List.getLast_mem hune)).2 hnul ht
  have h1 : skip_while (fun c => !isspace c) (u ++ List.replicate t.length 0) 0 = u.length :=
    skip_while_zero _ u _ (fun x hx => nonspace_pass (hu x hx)) (zeros_stop _ _)
  have h2 : (u ++ List.replicate t.length 0).getD u.length 0 = 0 := getD_append_end u _
  have h3 : cstr (u ++ List.replicate t.length 0) = u := cstr_append_zeros hnul _
  have h4 : cstr ((u ++ List.replicate t.length 0).drop u.length) = [] := by
    rw [List.drop_left]
    exact cstr_append_zeros (a := []) (by simp) _
  unfold parse_line
  simp only [hkw, h1, h2, h3, h4, ne_eq, not_true_eq_false, if_false]

/-- A buffer whose first byte is whitespace parses to the empty username. -/
theorem parse_line_leading_space (s : List Nat) (h : isspace (s.getD 0 0) = true) :
    (parse_line s).1 = [] := by
  have hk : (kill_whitey s).getD 0 0 = s.getD 0 0 := kill_whitey_loop_head _ s
  have hne : (kill_whitey s).getD 0 0 ≠ 0 := by
    rw [hk]
    exact isspace_ne_zero h
  have h1 : skip_while (fun c => !isspace c) (kill_whitey s) 0 = 0 := by
    unfold skip_while
    rw [List.drop_zero]
    cases hs : kill_whitey s with
    | nil => rfl
    | cons x r =>
      have hx : x = s.getD 0 0 := by
        rw [← hk, hs]
        rfl
      have hxs : isspace x = true := by
        rw [hx]
        exact h
      rw [List.takeWhile_cons_of_neg (by simp [hxs])]
      rfl
  have hz : ∀ (b : List Nat), cstr (b.set 0 0) = [] ∨ b = [] := by
    intro b
    cases b with
    | nil => right; rfl
    | cons x r => left; simp [cstr]
  have hset : cstr ((kill_whitey s).set 0 0) = [] := by
    rcases hz (kill_whitey s) with h0 | h0
    · exact h0
    · rw [h0]
      rfl
  unfold parse_line
  simp only [h1, hne, ne_eq, not_false_eq_true, if_true]
  split_ifs with hc
  · exact hset
  · simp only
    have hpos : 0 < skip_while (fun c => !isspace c) ((kill_whitey s).set 0 0)
        (skip_while isspace ((kill_whitey s).set 0 0) (0 + 1)) := by
      unfold skip_while
      omega
    cases hk2 : kill_whitey s with
    | nil => rfl
    | cons x r =>
      rw [hk2] at hpos
      obtain ⟨n, hn⟩ : ∃ n, skip_while (fun c => !isspace c) ((x :: r).set 0 0)
          (skip_while isspace ((x :: r).set 0 0) (0 + 1)) = n + 1 := ⟨_, (Nat.succ_pred_eq_of_pos hpos).symm⟩
      rw [hn]
      simp [cstr]

theorem skip_while_never (buf : List Nat) (i : Nat) :
    skip_while (fun _ => false) buf i = i := by
  unfold skip_while
  cases List.drop i buf with
  | nil => rfl
  | cons x r => simp

/-- A line with a username and a password: the config is the empty string. -/
theorem parse_line_user_password (u w1 p t : List Nat) (s1 p0 : Nat)
    (hu : ∀ x ∈ u, x ≠ 0 ∧ isspace x = false)
    (hs1 : isspace s1 = true) (hw1 : ∀ x ∈ w1, isspace x = true)
    (hp : ∀ x ∈ p0 :: p, x ≠ 0 ∧ isspace x = false)
    (ht : ∀ x ∈ t, isspace x = true) :
    parse_line (u ++ (s1 :: w1) ++ (p0 :: p) ++ t) = (u, p0 :: p, some []) := by
  have hunul : ∀ x ∈ u, x ≠ 0 := fun x hx => (hu x hx).1
  have hpnul : ∀ x ∈ p0 :: p, x ≠ 0 := fun x hx => (hp x hx).1
  have hs1ne : s1 ≠ 0 := isspace_ne_zero hs1
  have hne : u ++ (s1 :: w1) ++ (p0 :: p) ≠ [] := by simp
  have hmem : (u ++ (s1 :: w1) ++ (p0 :: p)).getLast hne ∈ p0 :: p := by
    rw [List.getLast_append_right (List.cons_ne_nil _ _)]
    exact List.getLast_mem _
  have hnul : ∀ x ∈ u ++ (s1 :: w1) ++ (p0 :: p), x ≠ 0 := by
    intro x hx
    rcases List.mem_append.mp hx with h | h
    · rcases List.mem_append.mp h with h | h
      · exact hunul x h
      · rcases List.mem_cons.mp h with h | h
        · rw [h]
          exact hs1ne
        · exact isspace_ne_zero (hw1 x h)
    · exact hpnul x h
  have hkw := kill_whitey_trailing _ t hne (hp _ hmem).2 hnul ht
  have hc1 : u ++ (s1 :: w1) ++ (p0 :: p) ++ List.replicate t.length 0
      = u ++ (s1 :: (w1 ++ (p0 :: (p ++ List.replicate t.length 0)))) := by simp
  rw [hc1] at hkw
  have h1 : skip_while (fun c => !isspace c)
      (u ++ (s1 :: (w1 ++ (p0 :: (p ++ List.replicate t.length 0))))) 0 = u.length :=
    skip_while_zero _ u _ (fun x hx => nonspace_pass (hu x hx))
      (fun y hy => by simp at hy; subst hy; simp [hs1])
  have h2 : (u ++ (s1 :: (w1 ++ (p0 :: (p ++ List.replicate t.length 0))))).getD u.length 0
      = s1 := getD_append_at u s1 _
  have h3 : (u ++ (s1 :: (w1 ++ (p0 :: (p ++ List.replicate t.length 0))))).set u.length 0
      = u ++ (0 :: (w1 ++ (p0 :: (p ++ List.replicate t.length 0)))) := set_append_at u s1 0 _
  have h4 : skip_while isspace (u ++ (0 :: (w1 ++ (p0 :: (p ++ List.replicate t.length 0)))))
      (u.length + 1) = (u ++ [0] ++ w1).length := by
    have e : u ++ (0 :: (w1 ++ (p0 :: (p ++ List.replicate t.length 0))))
        = (u ++ [0]) ++ (w1 ++ (p0 :: (p ++ List.replicate t.length 0))) := by simp
    have i : u.length + 1 = (u ++ [0]).length := by simp
    rw [e, i]
    exact skip_while_append isspace _ w1 _ (fun x hx => space_pass (hw1 x hx))
      (fun y hy => by
        simp at hy
        subst hy
        simp [(hp p0 (List.mem_cons_self _ _)).2])
  have e5 : u ++ (0 :: (w1 ++ (p0 :: (p ++ List.replicate t.length 0))))
      = (u ++ [0] ++ w1) ++ ((p0 :: p) ++ List.replicate t.length 0) := by simp
  have h5 : skip_while (fun c => !isspace c)
      (u ++ (0 :: (w1 ++ (p0 :: (p ++ List.replicate t.length 0)))))
      (u ++ [0] ++ w1).length = (u ++ [0] ++ w1 ++ (p0 :: p)).length := by
    rw [e5]
    exact skip_while_append _ _ (p0 :: p) _ (fun x hx => nonspace_pass (hp x hx))
      (zeros_stop _ _)
  have e6 : u ++ (0 :: (w1 ++ (p0 :: (p ++ List.replicate t.length 0))))
      = (u ++ [0] ++ w1 ++ (p0 :: p)) ++ List.replicate t.length 0 := by simp
  have h6 : (u ++ (0 :: (w1 ++ (p0 :: (p ++ List.replicate t.length 0))))).getD
      (u ++ [0] ++ w1 ++ (p0 :: p)).length 0 = 0 := by
    rw [e6]
    exact getD_append_end _ _
  have h7 : cstr (u ++ (0 :: (w1 ++ (p0 :: (p ++ List.replicate t.length 0))))) = u :=
    cstr_append_zero hunul _
  have h8 : cstr ((u ++ (0 :: (w1 ++ (p0 :: (p ++ List.replicate t.length 0))))).drop
      (u ++ [0] ++ w1).length) = p0 :: p := by
    rw [e5, List.drop_left]
    exact cstr_append_zeros hpnul _
  have h9 : cstr ((u ++ (0 :: (w1 ++ (p0 :: (p ++ List.replicate t.length 0))))).drop
      (u ++ [0] ++ w1 ++ (p0 :: p)).length) = [] := by
    rw [e6, List.drop_left]
    exact cstr_append_zeros (a := []) (by simp) _
  unfold parse_line
  simp only [hkw, h1, h2, h3, h4, h5, h6, h7, h8, h9, hs1ne, ne_eq, not_false_eq_true,
    not_true_eq_false, if_true, if_false]

/-- A line with a username, a password and a config: the stored config starts
right after the first whitespace byte that follows the password. -/
theorem parse_line_user_password_config (u w1 p m t : List Nat) (s1 p0 s2 l : Nat)
    (hu : ∀ x ∈ u, x ≠ 0 ∧ isspace x = false)
    (hs1 : isspace s1 = true) (hw1 : ∀ x ∈ w1, isspace x = true)
    (hp : ∀ x ∈ p0 :: p, x ≠ 0 ∧ isspace x = false)
    (hs2 : isspace s2 = true) (hm : ∀ x ∈ m, x ≠ 0)
    (hl : l ≠ 0 ∧ isspace l = false)
    (ht : ∀ x ∈ t, isspace x = true) :
    parse_line ((u ++ (s1 :: w1) ++ (p0 :: p) ++ (s2 :: (m ++ [l]))) ++ t) = (u, p0 :: p, some (m ++ [l])) := by
  have hunul : ∀ x ∈ u, x ≠ 0 := fun x hx => (hu x hx).1
  have hpnul : ∀ x ∈ p0 :: p, x ≠ 0 := fun x hx => (hp x hx).1
  have hs1ne : s1 ≠ 0 := isspace_ne_zero hs1
  have hs2ne : s2 ≠ 0 := isspace_ne_zero hs2
  have hp0 : isspace p0 = false := (hp p0 (List.mem_cons_self _ _)).2
  have hmlnul : ∀ x ∈ m ++ [l], x ≠ 0 := by
    intro x hx
    rcases List.mem_append.mp hx with h | h
    · exact hm x h
    · rw [List.mem_singleton.mp h]
      exact hl.1
  have hne : (u ++ (s1 :: w1) ++ (p0 :: p) ++ (s2 :: (m ++ [l]))) ≠ [] := by simp
  have hlast : (u ++ (s1 :: w1) ++ (p0 :: p) ++ (s2 :: (m ++ [l]))).getLast hne = l := by
    have e : (u ++ (s1 :: w1) ++ (p0 :: p) ++ (s2 :: (m ++ [l]))) = (u ++ (s1 :: w1) ++ (p0 :: p) ++ (s2 :: m)) ++ [l] := by simp
    simp only [e, List.getLast_append_singleton]
  have hnul : ∀ x ∈ (u ++ (s1 :: w1) ++ (p0 :: p) ++ (s2 :: (m ++ [l]))), x ≠ 0 := by
    intro x hx
    rcases List.mem_append.mp hx with h | h
    · rcases List.mem_append.mp h with h | h
      · rcases List.mem_append.mp h with h | h
        · exact hunul x h
        · rcases List.mem_cons.mp h with h | h
          · rw [h]
            exact hs1ne
          · exact isspace_ne_zero (hw1 x h)
      · exact hpnul x h
    · rcases List.mem_cons.mp h with h | h
      · rw [h]
        exact hs2ne
      · exact hmlnul x h
  have hkw := kill_whitey_trailing _ t hne (by rw [hlast]; exact hl.2) hnul ht
  have hc1 : (u ++ (s1 :: w1) ++ (p0 :: p) ++ (s2 :: (m ++ [l]))) ++ List.replicate t.length 0
      = (u ++ (s1 :: (w1 ++ (p0 :: (p ++ (s2 :: (m ++ (l :: List.replicate t.length 0)))))))) := by simp
  rw [hc1] at hkw
  have h1 : skip_while (fun c => !isspace c)
      (u ++ (s1 :: (w1 ++ (p0 :: (p ++ (s2 :: (m ++ (l :: List.replicate t.length 0)))))))) 0 = u.length :=
    skip_while_zero _ u _ (fun x hx => nonspace_pass (hu x hx))
      (fun y hy => by simp at hy; subst hy; simp [hs1])
  have h2 : (u ++ (s1 :: (w1 ++ (p0 :: (p ++ (s2 :: (m ++ (l :: List.replicate t.length 0)))))))).getD u.length 0
      = s1 := getD_append_at u s1 _
  have h3 : (u ++ (s1 :: (w1 ++ (p0 :: (p ++ (s2 :: (m ++ (l :: List.replicate t.length 0)))))))).set u.length 0
      = (u ++ (0 :: (w1 ++ (p0 :: (p ++ (s2 :: (m ++ (l :: List.replicate t.length 0)))))))) := set_append_at u s1 0 _
  have h4 : skip_while isspace (u ++ (0 :: (w1 ++ (p0 :: (p ++ (s2 :: (m ++ (l :: List.replicate t.length 0))))))))
      (u.length + 1) = (u ++ [0] ++ w1).length := by
    have e : (u ++ (0 :: (w1 ++ (p0 :: (p ++ (s2 :: (m ++ (l :: List.replicate t.length 0))))))))
        = (u ++ [0]) ++ (w1 ++ (p0 :: (p ++ (s2 :: (m ++ (l :: List.replicate t.length 0)))))) := by simp
    have i : u.length + 1 = (u ++ [0]).length := by simp
    rw [e, i]
    exact skip_while_append isspace _ w1 _ (fun x hx => space_pass (hw1 x hx))
      (fun y hy => by
        simp at hy
        subst hy
        simp [hp0])
  have e5 : (u ++ (0 :: (w1 ++ (p0 :: (p ++ (s2 :: (m ++ (l :: List.replicate t.length 0))))))))
      = (u ++ [0] ++ w1) ++ ((p0 :: p) ++ (s2 :: (m ++ (l :: List.replicate t.length 0)))) := by simp
  have h5 : skip_while (fun c => !isspace c)
      (u ++ (0 :: (w1 ++ (p0 :: (p ++ (s2 :: (m ++ (l :: List.replicate t.length 0))))))))
      (u ++ [0] ++ w1).length = (u ++ [0] ++ w1 ++ (p0 :: p)).length := by
    rw [e5]
    exact skip_while_append _ _ (p0 :: p) _ (fun x hx => nonspace_pass (hp x hx))
      (fun y hy => by simp at hy; subst hy; simp [hs2])
  have e6 : (u ++ (0 :: (w1 ++ (p0 :: (p ++ (s2 :: (m ++ (l :: List.replicate t.length 0))))))))
      = (u ++ [0] ++ w1 ++ (p0 :: p)) ++ (s2 :: (m ++ (l :: List.replicate t.length 0))) := by simp
  have h6 : (u ++ (0 :: (w1 ++ (p0 :: (p ++ (s2 :: (m ++ (l :: List.replicate t.length 0)))))))).getD
      (u ++ [0] ++ w1 ++ (p0 :: p)).length 0 = s2 := by
    rw [e6]
    exact getD_append_at _ _ _
  have h6b : (u ++ (0 :: (w1 ++ (p0 :: (p ++ (s2 :: (m ++ (l :: List.replicate t.length 0)))))))).set
      (u ++ [0] ++ w1 ++ (p0 :: p)).length 0 = (u ++ (0 :: (w1 ++ (p0 :: (p ++ (0 :: (m ++ (l :: List.replicate t.length 0)))))))) := by
    rw [e6, set_append_at]
    simp
  have e7 : (u ++ (0 :: (w1 ++ (p0 :: (p ++ (0 :: (m ++ (l :: List.replicate t.length 0))))))))
      = (u ++ [0] ++ w1) ++ (p0 :: (p ++ (0 :: (m ++ (l :: List.replicate t.length 0))))) := by simp
  have h6c : (u ++ (0 :: (w1 ++ (p0 :: (p ++ (0 :: (m ++ (l :: List.replicate t.length 0)))))))).getD
      (u ++ [0] ++ w1).length 0 = p0 := by
    rw [e7]
    exact getD_append_at _ _ _
  have h7 : cstr (u ++ (0 :: (w1 ++ (p0 :: (p ++ (0 :: (m ++ (l :: List.replicate t.length 0)))))))) = u :=
    cstr_append_zero hunul _
  have h8 : cstr ((u ++ (0 :: (w1 ++ (p0 :: (p ++ (0 :: (m ++ (l :: List.replicate t.length 0)))))))).drop
      (u ++ [0] ++ w1).length) = p0 :: p := by
    rw [e7, List.drop_left]
    exact cstr_append_zero (a := p0 :: p) hpnul _
  have h9 : cstr ((u ++ (0 :: (w1 ++ (p0 :: (p ++ (0 :: (m ++ (l :: List.replicate t.length 0)))))))).drop
      ((u ++ [0] ++ w1 ++ (p0 :: p)).length + 1)) = m ++ [l] := by
    have e : (u ++ (0 :: (w1 ++ (p0 :: (p ++ (0 :: (m ++ (l :: List.replicate t.length 0))))))))
        = (u ++ [0] ++ w1 ++ (p0 :: p) ++ [0]) ++ ((m ++ [l]) ++ List.replicate t.length 0) := by simp
    have i : (u ++ [0] ++ w1 ++ (p0 :: p)).length + 1
        = (u ++ [0] ++ w1 ++ (p0 :: p) ++ [0]).length := by
      simp
      omega
    rw [e, i, List.drop_left]
    exact cstr_append_zeros hmlnul _
  unfold parse_line
  simp only [hkw, h1, h2, h3, h4, h5, h6, h6b, h6c, hp0, skip_while_never, h7, h8, h9, hs1ne,
    hs2ne, ne_eq, not_false_eq_true, not_true_eq_false, if_true, if_false]

/-! ## One line of the file, one turn of the read loop -/

theorem fgets_line (A rest : List Nat) (hA : ∀ x ∈ A, x ≠ 10) (hlen : A.length < 127) :
    fgets 128 (A ++ 10 :: rest) = some (A ++ [10], rest) := by
  have h := fgets_aux_line 127 A rest hA hlen
  cases A with
  | nil => simp [fgets, fgets_aux]
  | cons x t =>
    simp only [List.cons_append, fgets] at h ⊢
    rw [h]

theorem fgets_long (A rest : List Nat) (hA : ∀ x ∈ A, x ≠ 10) (hlen : 127 ≤ A.length) :
    fgets 128 (A ++ rest) = some (A.take 127, A.drop 127 ++ rest) := by
  have h := fgets_aux_long 127 A rest hA hlen
  cases A with
  | nil => simp at hlen
  | cons x t =>
    simp only [List.cons_append, fgets] at h ⊢
    rw [h]

theorem process_line_of_parse (hash : List Nat → Nat → Nat → Nat) (ht : user_ht_t)
    (up u p : List Nat) (cfg : Option (List Nat)) (hc : up.getD 0 0 ≠ 35)
    (hparse : parse_line up = (u, p, cfg)) (hune : u ≠ []) (hu : ∀ x ∈ u, x ≠ 0) :
    process_line hash ht up = store_pw hash ht u p cfg := by
  have hpos : strlen u > 0 := by
    unfold strlen
    rw [cstr_of_nulfree hu]
    exact List.length_pos.mpr hune
  unfold process_line
  rw [hparse]
  simp only [hc, hpos, ne_eq, not_false_eq_true, if_true]

theorem process_line_blank (hash : List Nat → Nat → Nat → Nat) (ht : user_ht_t)
    (up : List Nat) (h : isspace (up.getD 0 0) = true) : process_line hash ht up = ht := by
  unfold process_line
  rw [parse_line_leading_space up h]
  simp [strlen, cstr]

theorem nonspace_ne_newline {x : Nat} (h : isspace x = false) : x ≠ 10 := by
  intro hx
  subst hx
  simp [isspace] at h

/-! ## Claims about the loader, for every line of a given form -/

theorem find_pw_store_pw_empty (hash : List Nat → Nat → Nat → Nat) (u p : List Nat)
    (cfg : Option (List Nat)) :
    find_pw hash (some (store_pw hash empty_ht u p cfg)) u
      = some (some (cstr p, cfg.map cstr)) := by
  have hcmp : strcmp (cstr u) u = 0 := by
    rw [strcmp_eq_zero_iff, cstr_idem]
  simp only [find_pw, store_pw, empty_ht, if_true, find_entry, strdup, hcmp, ne_eq,
    not_true_eq_false, if_false]
  rfl


/-- C6: for a line `u w1 p [w2 c] t` shorter than the 128-byte read buffer, where
`u` and `p` are non-empty and free of whitespace, `u` does not start with `#`,
`w1` and `w2` are non-empty whitespace runs, `c` starts and ends with a
non-whitespace byte and `t` is trailing whitespace closed by the newline, the
read loop of `load_user_db` stores one record whose username is exactly `u` and
whose password is exactly `p` (the text holds no NUL byte; `wc` is the optional
part `w2 c`, and the stored config is what follows its first byte). -/
theorem load_user_db_stores_username_and_password (hash : List Nat → Nat → Nat → Nat)
    (ht : user_ht_t) (u w1 p wc ws rest : List Nat)
    (hune : u ≠ []) (hu : ∀ x ∈ u, x ≠ 0 ∧ isspace x = false) (hhash : u.head? ≠ some 35)
    (hw1ne : w1 ≠ []) (hw1 : ∀ x ∈ w1, isspace x = true ∧ x ≠ 10)
    (hpne : p ≠ []) (hp : ∀ x ∈ p, x ≠ 0 ∧ isspace x = false)
    (hwc : wc = [] ∨ ∃ w2 c, wc = w2 ++ c ∧ w2 ≠ [] ∧
      (∀ x ∈ w2, isspace x = true ∧ x ≠ 10) ∧ c ≠ [] ∧ (∀ x ∈ c, x ≠ 0 ∧ x ≠ 10) ∧
      (∀ x ∈ c.head?, isspace x = false) ∧ (∀ x ∈ c.getLast?, isspace x = false))
    (hws : ∀ x ∈ ws, isspace x = true ∧ x ≠ 10)
    (hlen : (u ++ w1 ++ p ++ wc ++ ws ++ [10]).length < 128) :
    read_lines hash (u ++ w1 ++ p ++ wc ++ ws ++ [10] ++ rest).length
        (u ++ w1 ++ p ++ wc ++ ws ++ [10] ++ rest) ht
      = read_lines hash rest.length rest (store_pw hash ht u p (some wc.tail)) ∧
    build_table hash (u ++ w1 ++ p ++ wc ++ ws ++ [10])
      = store_pw hash empty_ht u p (some wc.tail) ∧
    find_pw hash (some (build_table hash (u ++ w1 ++ p ++ wc ++ ws ++ [10]))) u
      = some (some (p, some wc.tail)) := by
  have hunul : ∀ x ∈ u, x ≠ 0 := fun x hx => (hu x hx).1
  have hpnul : ∀ x ∈ p, x ≠ 0 := fun x hx => (hp x hx).1
  have hwcnul : ∀ x ∈ wc.tail, x ≠ 0 := by
    rcases hwc with h | ⟨w2, c, h, _, hw2, _, hc, _, _⟩
    · rw [h]
      simp
    · rw [h]
      intro x hx
      rcases List.mem_append.mp (List.mem_of_mem_tail hx) with hx | hx
      · exact isspace_ne_zero (hw2 x hx).1
      · exact (hc x hx).1
  have hwcnl : ∀ x ∈ wc, x ≠ 10 := by
    rcases hwc with h | ⟨w2, c, h, _, hw2, _, hc, _, _⟩
    · rw [h]
      simp
    · rw [h]
      intro x hx
      rcases List.mem_append.mp hx with hx | hx
      · exact (hw2 x hx).2
      · exact (hc x hx).2
  have hA : ∀ x ∈ u ++ w1 ++ p ++ wc ++ ws, x ≠ 10 := by
    intro x hx
    rcases List.mem_append.mp hx with hx | hx
    · rcases List.mem_append.mp hx with hx | hx
      · rcases List.mem_append.mp hx with hx | hx
        · rcases List.mem_append.mp hx with hx | hx
          · exact nonspace_ne_newline (hu x hx).2
          · exact (hw1 x hx).2
        · exact nonspace_ne_newline (hp x hx).2
      · exact hwcnl x hx
    · exact (hws x hx).2
  have hAlen : (u ++ w1 ++ p ++ wc ++ ws).length < 127 := by
    rw [List.length_append] at hlen
    simp only [List.length_singleton] at hlen
    omega
  have htw : ∀ x ∈ ws ++ [10], isspace x = true := by
    intro x hx
    rcases List.mem_append.mp hx with hx | hx
    · exact (hws x hx).1
    · rw [List.mem_singleton.mp hx]
      decide
  have hparse : parse_line (u ++ w1 ++ p ++ wc ++ ws ++ [10]) = (u, p, some wc.tail) := by
    obtain ⟨s1, w1r, rfl⟩ := List.exists_cons_of_ne_nil hw1ne
    obtain ⟨p0, pr, rfl⟩ := List.exists_cons_of_ne_nil hpne
    have hs1 : isspace s1 = true := (hw1 s1 (List.mem_cons_self _ _)).1
    have hw1r : ∀ x ∈ w1r, isspace x = true :=
      fun x hx => (hw1 x (List.mem_cons_of_mem _ hx)).1
    rcases hwc with h | ⟨w2, c, h, hw2ne, hw2, hcne, hc, _, hclast⟩
    · subst h
      have e : u ++ (s1 :: w1r) ++ (p0 :: pr) ++ [] ++ ws ++ [10]
          = u ++ (s1 :: w1r) ++ (p0 :: pr) ++ (ws ++ [10]) := by simp
      rw [e]
      exact parse_line_user_password u w1r pr (ws ++ [10]) s1 p0 hu hs1 hw1r hp htw
    · obtain ⟨s2, w2r, rfl⟩ := List.exists_cons_of_ne_nil hw2ne
      have hcl := List.dropLast_concat_getLast hcne
      have hlast : isspace (c.getLast hcne) = false :=
        hclast _ (List.getLast_mem_getLast? hcne)
      have hwceq : wc = s2 :: ((w2r ++ c.dropLast) ++ [c.getLast hcne]) := by
        rw [h, List.append_assoc, hcl]
        rfl
      have hm : ∀ x ∈ w2r ++ c.dropLast, x ≠ 0 := by
        intro x hx
        rcases List.mem_append.mp hx with hx | hx
        · exact isspace_ne_zero (hw2 x (List.mem_cons_of_mem _ hx)).1
        · exact (hc x (List.mem_of_mem_dropLast hx)).1
      have e : u ++ (s1 :: w1r) ++ (p0 :: pr) ++ wc ++ ws ++ [10]
          = u ++ (s1 :: w1r) ++ (p0 :: pr)
              ++ (s2 :: ((w2r ++ c.dropLast) ++ [c.getLast hcne])) ++ (ws ++ [10]) := by
        rw [hwceq]
        simp
      rw [e, hwceq]
      exact parse_line_user_password_config u w1r pr (w2r ++ c.dropLast) (ws ++ [10]) s1 p0 s2
        (c.getLast hcne) hu hs1 hw1r hp (hw2 s2 (List.mem_cons_self _ _)).1 hm
        ⟨(hc _ (List.getLast_mem hcne)).1, hlast⟩ htw
  have hhead : (u ++ w1 ++ p ++ wc ++ ws ++ [10]).getD 0 0 ≠ 35 := by
    obtain ⟨u0, ur, rfl⟩ := List.exists_cons_of_ne_nil hune
    intro h35
    apply hhash
    simp only [List.cons_append, List.getD_cons_zero] at h35
    rw [h35]
    rfl
  have key : ∀ (rest : List Nat) (ht : user_ht_t),
      read_lines hash (u ++ w1 ++ p ++ wc ++ ws ++ [10] ++ rest).length
        (u ++ w1 ++ p ++ wc ++ ws ++ [10] ++ rest) ht
      = read_lines hash rest.length rest (store_pw hash ht u p (some wc.tail)) := by
    intro rest ht
    have hf : fgets 128 (u ++ w1 ++ p ++ wc ++ ws ++ [10] ++ rest)
        = some (u ++ w1 ++ p ++ wc ++ ws ++ [10], rest) := by
      have e : u ++ w1 ++ p ++ wc ++ ws ++ [10] ++ rest
          = (u ++ w1 ++ p ++ wc ++ ws) ++ 10 :: rest := by simp
      rw [e]
      exact fgets_line _ rest hA hAlen
    rw [read_lines_step hash _ _ _ ht hf,
      process_line_of_parse hash ht _ u p (some wc.tail) hhead hparse hune hunul]
  have hb : build_table hash (u ++ w1 ++ p ++ wc ++ ws ++ [10])
      = store_pw hash empty_ht u p (some wc.tail) := by
    have h := key [] empty_ht
    rw [List.append_nil] at h
    unfold build_table
    rw [h]
    rfl
  refine ⟨key rest ht, hb, ?_⟩
  rw [hb, find_pw_store_pw_empty hash u p (some wc.tail), cstr_of_nulfree hpnul]
  simp only [Option.map_some', cstr_of_nulfree hwcnul]

/-- The witness of C6: the line `alice secretpw cfg1`. -/
theorem load_user_db_stores_username_and_password_witness :
    ((bytes "alice" ++ [32] ++ bytes "secretpw" ++ bytes " cfg1" ++ [] ++ [10]).length < 128 ∧
      (∀ x ∈ bytes "alice", x ≠ 0 ∧ isspace x = false) ∧
      (∀ x ∈ bytes "secretpw", x ≠ 0 ∧ isspace x = false)) ∧
    (read_lines test_hash
        (bytes "alice" ++ [32] ++ bytes "secretpw" ++ bytes " cfg1" ++ [] ++ [10] ++ []).length
        (bytes "alice" ++ [32] ++ bytes "secretpw" ++ bytes " cfg1" ++ [] ++ [10] ++ []) empty_ht
      = read_lines test_hash ([] : List Nat).length []
          (store_pw test_hash empty_ht (bytes "alice") (bytes "secretpw")
            (some (bytes " cfg1").tail)) ∧
    build_table test_hash (bytes "alice" ++ [32] ++ bytes "secretpw" ++ bytes " cfg1" ++ [] ++ [10])
      = store_pw test_hash empty_ht (bytes "alice") (bytes "secretpw")
          (some (bytes " cfg1").tail) ∧
    find_pw test_hash
        (some (build_table test_hash
          (bytes "alice" ++ [32] ++ bytes "secretpw" ++ bytes " cfg1" ++ [] ++ [10])))
        (bytes "alice")
      = some (some (bytes "secretpw", some (bytes " cfg1").tail))) :=
  ⟨⟨by decide, by decide, by decide⟩,
    load_user_db_stores_username_and_password test_hash empty_ht (bytes "alice") [32]
      (bytes "secretpw") (bytes " cfg1") [] [] (by decide) (by decide) (by decide) (by decide)
      (by decide) (by decide) (by decide)
      (Or.inr ⟨[32], bytes "cfg1", by decide, by decide, by decide, by decide, by decide,
        by decide, by decide⟩)
      (by decide) (by decide)⟩

/-- A line of blanks, however long, stores nothing. -/
theorem read_lines_blank_line (hash : List Nat → Nat → Nat → Nat) (n : Nat) :
    ∀ (ws rest : List Nat) (ht : user_ht_t), ws.length ≤ n →
      (∀ x ∈ ws, isspace x = true ∧ x ≠ 10) →
      read_lines hash (ws ++ 10 :: rest).length (ws ++ 10 :: rest) ht
        = read_lines hash rest.length rest ht := by
  induction n with
  | zero =>
    intro ws rest ht hl _
    have hs : ws = [] := List.length_eq_zero.mp (by omega)
    subst hs
    have hf : fgets 128 ([] ++ 10 :: rest) = some ([] ++ [10], rest) :=
      fgets_line [] rest (by simp) (by simp)
    rw [read_lines_step hash _ _ _ ht hf, process_line_blank hash ht _ (by decide)]
  | succ k ih =>
    intro ws rest ht hl hws
    by_cases hshort : ws.length < 127
    · have hf : fgets 128 (ws ++ 10 :: rest) = some (ws ++ [10], rest) :=
        fgets_line ws rest (fun x hx => (hws x hx).2) hshort
      have hb : isspace ((ws ++ [10]).getD 0 0) = true := by
        cases ws with
        | nil => decide
        | cons x r => exact (hws x (List.mem_cons_self _ _)).1
      rw [read_lines_step hash _ _ _ ht hf, process_line_blank hash ht _ hb]
    · have hf : fgets 128 (ws ++ 10 :: rest)
          = some (ws.take 127, ws.drop 127 ++ 10 :: rest) :=
        fgets_long ws _ (fun x hx => (hws x hx).2) (by omega)
      have hb : isspace ((ws.take 127).getD 0 0) = true := by
        cases ws with
        | nil => simp at hshort
        | cons x r => exact (hws x (List.mem_cons_self _ _)).1
      rw [read_lines_step hash _ _ _ ht hf, process_line_blank hash ht _ hb]
      apply ih
      · rw [List.length_drop]
        omega
      · intro x hx
        exact hws x (List.mem_of_mem_drop hx)

/-- C8 (amended): for a line that consists of a non-empty whitespace-free username
of at most 127 bytes (one that fits the read buffer), not starting with `#`,
followed only by optional whitespace of any length and the newline, the read
loop of `load_user_db` stores one record with that username, the empty string as
password and no config (null). -/
theorem load_user_db_username_only_line (hash : List Nat → Nat → Nat → Nat)
    (ht : user_ht_t) (u ws rest : List Nat)
    (hune : u ≠ []) (hu : ∀ x ∈ u, x ≠ 0 ∧ isspace x = false) (hhash : u.head? ≠ some 35)
    (hulen : u.length ≤ 127) (hws : ∀ x ∈ ws, isspace x = true ∧ x ≠ 10) :
    read_lines hash (u ++ ws ++ [10] ++ rest).length (u ++ ws ++ [10] ++ rest) ht
      = read_lines hash rest.length rest (store_pw hash ht u [] none) ∧
    build_table hash (u ++ ws ++ [10]) = store_pw hash empty_ht u [] none ∧
    find_pw hash (some (build_table hash (u ++ ws ++ [10]))) u = some (some ([], none)) := by
  have hunul : ∀ x ∈ u, x ≠ 0 := fun x hx => (hu x hx).1
  have hA : ∀ x ∈ u ++ ws, x ≠ 10 := by
    intro x hx
    rcases List.mem_append.mp hx with hx | hx
    · exact nonspace_ne_newline (hu x hx).2
    · exact (hws x hx).2
  have hhead : ∀ (t : List Nat), (u ++ t).getD 0 0 ≠ 35 := by
    intro t
    obtain ⟨u0, ur, rfl⟩ := List.exists_cons_of_ne_nil hune
    intro h35
    apply hhash
    simp only [List.cons_append, List.getD_cons_zero] at h35
    rw [h35]
    rfl
  have key : ∀ (rest : List Nat) (ht : user_ht_t),
      read_lines hash (u ++ ws ++ [10] ++ rest).length (u ++ ws ++ [10] ++ rest) ht
        = read_lines hash rest.length rest (store_pw hash ht u [] none) := by
    intro rest ht
    have e : u ++ ws ++ [10] ++ rest = (u ++ ws) ++ 10 :: rest := by simp
    rw [e]
    by_cases hshort : (u ++ ws).length < 127
    · have hf := fgets_line (u ++ ws) rest hA hshort
      have htw : ∀ x ∈ ws ++ [10], isspace x = true := by
        intro x hx
        rcases List.mem_append.mp hx with hx | hx
        · exact (hws x hx).1
        · rw [List.mem_singleton.mp hx]
          decide
      have hparse : parse_line (u ++ ws ++ [10]) = (u, [], none) := by
        rw [List.append_assoc]
        exact parse_line_username_only u _ hune hu htw
      have hh : (u ++ ws ++ [10]).getD 0 0 ≠ 35 := by
        rw [List.append_assoc]
        exact hhead _
      rw [read_lines_step hash _ _ _ ht hf,
        process_line_of_parse hash ht _ u [] none hh hparse hune hunul]
    · have hf := fgets_long (u ++ ws) (10 :: rest) hA (by omega)
      have htake : (u ++ ws).take 127 = u ++ ws.take (127 - u.length) := by
        rw [List.take_append_eq_append_take, List.take_of_length_le hulen]
      have hdrop : (u ++ ws).drop 127 = ws.drop (127 - u.length) := by
        rw [List.drop_append_eq_append_drop, List.drop_of_length_le hulen, List.nil_append]
      rw [htake, hdrop] at hf
      have hparse : parse_line (u ++ ws.take (127 - u.length)) = (u, [], none) :=
        parse_line_username_only u _ hune hu
          (fun x hx => (hws x (List.mem_of_mem_take hx)).1)
      rw [read_lines_step hash _ _ _ ht hf,
        process_line_of_parse hash ht _ u [] none (hhead _) hparse hune hunul]
      exact read_lines_blank_line hash _ _ rest _ (le_refl _)
        (fun x hx => hws x (List.mem_of_mem_drop hx))
  have hb : build_table hash (u ++ ws ++ [10]) = store_pw hash empty_ht u [] none := by
    have h := key [] empty_ht
    rw [List.append_nil] at h
    unfold build_table
    rw [h]
    rfl
  refine ⟨key rest ht, hb, ?_⟩
  rw [hb, find_pw_store_pw_empty hash u [] none]
  rfl

/-- The witness of C8: the line `carol`. -/
theorem load_user_db_username_only_line_witness :
    (bytes "carol" ≠ [] ∧ (∀ x ∈ bytes "carol", x ≠ 0 ∧ isspace x = false) ∧
      (bytes "carol").head? ≠ some 35 ∧ (bytes "carol").length ≤ 127) ∧
    (read_lines test_hash (bytes "carol" ++ [] ++ [10] ++ []).length
        (bytes "carol" ++ [] ++ [10] ++ []) empty_ht
      = read_lines test_hash ([] : List Nat).length []
          (store_pw test_hash empty_ht (bytes "carol") [] none) ∧
    build_table test_hash (bytes "carol" ++ [] ++ [10])
      = store_pw test_hash empty_ht (bytes "carol") [] none ∧
    find_pw test_hash (some (build_table test_hash (bytes "carol" ++ [] ++ [10]))) (bytes "carol")
      = some (some ([], none))) :=
  ⟨⟨by decide, by decide, by decide, by decide⟩,
    load_user_db_username_only_line test_hash empty_ht (bytes "carol") [] [] (by decide)
      (by decide) (by decide) (by decide) (by simp)⟩

/-! ## Claims about the loader, at concrete files -/

/-- C7 (the code departs from the claim): for the line `alice secretpw  cfg1`, with
two spaces before the config, the stored config is ` cfg1`: it begins with a
space, the loop at line 152 tests `p[0]` and never advances `cfg`. -/
theorem load_user_db_keeps_leading_space_of_config :
    parse_line (bytes "alice secretpw  cfg1\n")
      = (bytes "alice", bytes "secretpw", some (bytes " cfg1")) ∧
    find_pw test_hash (some (build_table test_hash (bytes "alice secretpw  cfg1\n")))
        (bytes "alice")
      = some (some (bytes "secretpw", some (32 :: bytes "cfg1"))) ∧
    isspace 32 = true := by
  decide

/-- C9 (the code departs from the claim): a comment line of 136 bytes, `#`, 126
times `x`, then ` root toor`, is read in two pieces; the second piece does not
begin with `#` and is stored as the record of user `root`. -/
theorem load_user_db_stores_tail_of_long_comment :
    fgets 128 (35 :: List.replicate 126 120 ++ bytes "root toor\n")
      = some (35 :: List.replicate 126 120, bytes "root toor\n") ∧
    find_pw test_hash
        (some (build_table test_hash (35 :: List.replicate 126 120 ++ bytes "root toor\n")))
        (bytes "root")
      = some (some (bytes "toor", some [])) := by
  decide

/-- C8 (as stated, refuted): the line made of a username of 128 letters `a` and the
newline stores no record for that username; it stores one for its first 127
bytes and one for its last byte. -/
theorem load_user_db_splits_long_username :
    (List.replicate 128 97 ≠ [] ∧ (∀ x ∈ List.replicate 128 97, isspace x = false) ∧
      (List.replicate 128 97).head? ≠ some 35) ∧
    find_pw test_hash (some (build_table test_hash (List.replicate 128 97 ++ [10])))
        (List.replicate 128 97) = some none ∧
    find_pw test_hash (some (build_table test_hash (List.replicate 128 97 ++ [10])))
        (List.replicate 127 97) = some (some ([], none)) ∧
    find_pw test_hash (some (build_table test_hash (List.replicate 128 97 ++ [10])))
        [97] = some (some ([], none)) := by
  decide

/-! ## Claims about the mechanism, the properties and the mechanism list -/

/-- A returning call either fails and leaves the session as it was, or succeeds
and stores a username and a config. -/
theorem sasl_server_start_cases (hash : List Nat → Nat → Nat → Nat)
    (user_ht : Option user_ht_t) (conn : sasl_conn_t) (mech clientin : List Nat) :
    sasl_server_start hash user_ht conn mech clientin = none ∨
    sasl_server_start hash user_ht conn mech clientin
      = some ⟨sasl_result.SASL_FAIL, conn, [], 0⟩ ∨
    ∃ u c, sasl_server_start hash user_ht conn mech clientin
      = some ⟨sasl_result.SASL_OK, ⟨some u, some c⟩, [], 0⟩ := by
  unfold sasl_server_start
  simp only
  split_ifs
  · split
    · left; rfl
    · right; left; rfl
    · left; rfl
    · right; right; exact ⟨_, _, rfl⟩
  all_goals (right; left; rfl)

theorem sasl_server_start_failure_conn (hash : List Nat → Nat → Nat → Nat)
    (user_ht : Option user_ht_t) (conn : sasl_conn_t) (mech clientin : List Nat)
    (r : start_result) (hr : sasl_server_start hash user_ht conn mech clientin = some r)
    (hne : r.rv ≠ sasl_result.SASL_OK) : r = ⟨sasl_result.SASL_FAIL, conn, [], 0⟩ := by
  rcases sasl_server_start_cases hash user_ht conn mech clientin with h | h | ⟨u, c, h⟩
  · rw [h] at hr
    simp at hr
  · rw [h] at hr
    simp only [Option.some.injEq] at hr
    exact hr.symm
  · rw [h] at hr
    simp only [Option.some.injEq] at hr
    subst hr
    simp at hne

/-- C11: for every mechanism name other than the exact string `PLAIN`, every
payload and every credential table (even a missing one), `sasl_server_start`
returns `SASL_FAIL`, sets the server output to the empty string with length 0
and leaves the session alone; the result is the same whatever the table, which
is never consulted. -/
theorem sasl_server_start_other_mechanism (hash : List Nat → Nat → Nat → Nat)
    (user_ht : Option user_ht_t) (conn : sasl_conn_t) (mech clientin : List Nat)
    (h : cstr mech ≠ PLAIN) :
    sasl_server_start hash user_ht conn mech clientin
      = some ⟨sasl_result.SASL_FAIL, conn, [], 0⟩ := by
  have hm : ¬ strcmp mech PLAIN = 0 := by
    rw [strcmp_eq_zero_iff]
    intro he
    apply h
    rw [he]
    decide
  unfold sasl_server_start
  rw [if_neg hm]

/-- The witness of C11: the names `plain`, `PLAIN ` and the empty name, with a
payload that PLAIN would accept and with no table at all. -/
theorem sasl_server_start_other_mechanism_witness :
    (cstr (bytes "plain") ≠ PLAIN ∧ cstr (bytes "PLAIN ") ≠ PLAIN ∧ cstr [] ≠ PLAIN) ∧
    sasl_server_start test_hash (some (build_table test_hash (bytes "alice secretpw cfg1\n")))
        sasl_server_new (bytes "plain") (0 :: bytes "alice" ++ 0 :: bytes "secretpw")
      = some ⟨sasl_result.SASL_FAIL, sasl_server_new, [], 0⟩ ∧
    sasl_server_start test_hash none sasl_server_new (bytes "PLAIN ")
        (0 :: bytes "alice" ++ 0 :: bytes "secretpw")
      = some ⟨sasl_result.SASL_FAIL, sasl_server_new, [], 0⟩ ∧
    sasl_server_start test_hash none sasl_server_new []
        (0 :: bytes "alice" ++ 0 :: bytes "secretpw")
      = some ⟨sasl_result.SASL_FAIL, sasl_server_new, [], 0⟩ :=
  ⟨⟨by decide, by decide, by decide⟩,
    sasl_server_start_other_mechanism test_hash _ sasl_server_new (bytes "plain") _ (by decide),
    sasl_server_start_other_mechanism test_hash none sasl_server_new (bytes "PLAIN ") _
      (by decide),
    sasl_server_start_other_mechanism test_hash none sasl_server_new [] _ (by decide)⟩

/-- C12 (as stated, refuted): on a session fresh from `sasl_server_new`,
`sasl_getprop` returns `SASL_OK`, with a null pointer, for `SASL_USERNAME` and
for `ISASL_CONFIG`. -/
theorem sasl_getprop_fresh_session_returns_ok :
    sasl_getprop sasl_server_new sasl_prop.SASL_USERNAME = (sasl_result.SASL_OK, none) ∧
    sasl_getprop sasl_server_new sasl_prop.ISASL_CONFIG = (sasl_result.SASL_OK, none) := by
  decide

/-- C12 (amended): on every session on which `sasl_server_start` has never returned
`SASL_OK`, `sasl_getprop` returns `SASL_OK` with a null pointer for
`SASL_USERNAME` and for `ISASL_CONFIG`, and `SASL_BADPARAM` for every other
property number; once a call of `sasl_server_start` returns `SASL_OK`, it yields
the identity and the config strings. -/
theorem sasl_getprop_never_authenticated (conn : sasl_conn_t)
    (h : never_authenticated conn) :
    sasl_getprop conn sasl_prop.SASL_USERNAME = (sasl_result.SASL_OK, none) ∧
    sasl_getprop conn sasl_prop.ISASL_CONFIG = (sasl_result.SASL_OK, none) ∧
    (∀ n, sasl_getprop conn (sasl_prop.other n) = (sasl_result.SASL_BADPARAM, none)) ∧
    (∀ hash user_ht mech clientin r,
      sasl_server_start hash user_ht conn mech clientin = some r →
      r.rv = sasl_result.SASL_OK →
      ∃ u c, sasl_getprop r.conn sasl_prop.SASL_USERNAME = (sasl_result.SASL_OK, some u) ∧
        sasl_getprop r.conn sasl_prop.ISASL_CONFIG = (sasl_result.SASL_OK, some c)) := by
  have hconn : conn = sasl_server_new := by
    induction h with
    | fresh => rfl
    | failed_start hash user_ht conn0 mech clientin r _ hr hne ih =>
      rw [sasl_server_start_failure_conn hash user_ht conn0 mech clientin r hr hne]
      exact ih
  subst hconn
  refine ⟨rfl, rfl, fun _ => rfl, ?_⟩
  intro hash user_ht mech clientin r hr hok
  rcases sasl_server_start_cases hash user_ht sasl_server_new mech clientin
    with h | h | ⟨u, c, h⟩
  · rw [h] at hr
    simp at hr
  · rw [h] at hr
    simp only [Option.some.injEq] at hr
    subst hr
    simp at hok
  · rw [h] at hr
    simp only [Option.some.injEq] at hr
    subst hr
    exact ⟨u, c, rfl, rfl⟩

/-- The witness of C12: the fresh session. -/
theorem sasl_getprop_never_authenticated_witness :
    never_authenticated sasl_server_new ∧
    sasl_getprop sasl_server_new sasl_prop.SASL_USERNAME = (sasl_result.SASL_OK, none) ∧
    sasl_getprop sasl_server_new sasl_prop.ISASL_CONFIG = (sasl_result.SASL_OK, none) ∧
    (∀ n, sasl_getprop sasl_server_new (sasl_prop.other n)
      = (sasl_result.SASL_BADPARAM, none)) ∧
    (∀ hash user_ht mech clientin r,
      sasl_server_start hash user_ht sasl_server_new mech clientin = some r →
      r.rv = sasl_result.SASL_OK →
      ∃ u c, sasl_getprop r.conn sasl_prop.SASL_USERNAME = (sasl_result.SASL_OK, some u) ∧
        sasl_getprop r.conn sasl_prop.ISASL_CONFIG = (sasl_result.SASL_OK, some c)) :=
  ⟨never_authenticated.fresh,
    sasl_getprop_never_authenticated sasl_server_new never_authenticated.fresh⟩

/-- C14: called with the fixed convention (empty prefix, single-space separator,
empty suffix), `sasl_listmech` returns `SASL_OK` with the result string `PLAIN`
and the length 5, for every session and every user argument; the store is not
among what it reads. -/
theorem sasl_listmech_plain (conn : sasl_conn_t) (user : Option (List Nat)) :
    sasl_listmech conn user [] [32] [] = some (sasl_result.SASL_OK, bytes "PLAIN", 5) := by
  unfold sasl_listmech
  decide

/-! ## Claims about the freshness probe -/

/-- C13: `isasl_is_fresh` returns true exactly when the stat of the credential file
succeeds and the file's modification time equals the remembered one, and false
when the stat fails or the two times differ; after a probe whose stat succeeds
the remembered time is the file's, so a second probe with the file unchanged
returns true whatever the first one returned. -/
theorem isasl_is_fresh_spec (w : world) (g : isasl_globals) :
    ((isasl_is_fresh w g).1 = true ↔
      ∃ st, w.stat w.ISASL_PWFILE = some st ∧ g.prev_stat.st_mtime = st.st_mtime) ∧
    ((isasl_is_fresh w g).1 = false ↔
      (w.stat w.ISASL_PWFILE = none ∨
        ∃ st, w.stat w.ISASL_PWFILE = some st ∧ g.prev_stat.st_mtime ≠ st.st_mtime)) ∧
    (∀ st, w.stat w.ISASL_PWFILE = some st →
      (isasl_is_fresh w g).2.prev_stat.st_mtime = st.st_mtime ∧
      (isasl_is_fresh w (isasl_is_fresh w g).2).1 = true) := by
  unfold isasl_is_fresh
  cases hs : w.stat w.ISASL_PWFILE with
  | none => simp
  | some st => simp

/-- C16 (as stated, refuted): at startup (remembered time 0) a load of a file whose
modification time is 5 succeeds and leaves the remembered time at 0, so the
probe made right after it returns false and asks for a second reload. -/
theorem load_user_db_keeps_remembered_mtime :
    (load_user_db test_hash
        ⟨some "isasl.pw", fun _ => some (bytes "alice secretpw cfg1\n"), fun _ => some ⟨5⟩, true⟩
        ⟨none, ⟨0⟩⟩).1 = sasl_result.SASL_OK ∧
    (load_user_db test_hash
        ⟨some "isasl.pw", fun _ => some (bytes "alice secretpw cfg1\n"), fun _ => some ⟨5⟩, true⟩
        ⟨none, ⟨0⟩⟩).2.prev_stat.st_mtime = 0 ∧
    (isasl_is_fresh
        ⟨some "isasl.pw", fun _ => some (bytes "alice secretpw cfg1\n"), fun _ => some ⟨5⟩, true⟩
        (load_user_db test_hash
          ⟨some "isasl.pw", fun _ => some (bytes "alice secretpw cfg1\n"), fun _ => some ⟨5⟩, true⟩
          ⟨none, ⟨0⟩⟩).2).1 = false := by
  decide

/-- C16 (amended): `load_user_db` leaves the remembered modification timestamp as
it was, on success as on failure; an `isasl_is_fresh` probe made right after a
load therefore returns what it would have returned before the load, and after a
successful load it returns true exactly when the timestamp remembered before the
load is already the file's. -/
theorem load_user_db_prev_stat_unchanged (hash : List Nat → Nat → Nat → Nat) (w : world)
    (g : isasl_globals) :
    (load_user_db hash w g).2.prev_stat = g.prev_stat ∧
    (isasl_is_fresh w (load_user_db hash w g).2).1 = (isasl_is_fresh w g).1 ∧
    (∀ st, w.stat w.ISASL_PWFILE = some st →
      (load_user_db hash w g).1 = sasl_result.SASL_OK →
      ((isasl_is_fresh w (load_user_db hash w g).2).1 = true ↔
        g.prev_stat.st_mtime = st.st_mtime)) := by
  have hp : (load_user_db hash w g).2.prev_stat = g.prev_stat := by
    unfold load_user_db
    cases w.ISASL_PWFILE with
    | none => rfl
    | some filename =>
      simp only
      cases w.fopen filename with
      | none => rfl
      | some file =>
        simp only
        cases w.calloc_ok with
        | false => rfl
        | true => rfl
  have hf : (isasl_is_fresh w (load_user_db hash w g).2).1 = (isasl_is_fresh w g).1 := by
    unfold isasl_is_fresh
    rw [hp]
    cases w.stat w.ISASL_PWFILE with
    | none => rfl
    | some st => rfl
  refine ⟨hp, hf, ?_⟩
  intro st hst _
  rw [hf]
  unfold isasl_is_fresh
  rw [hst]
  simp

/-- C17 (as stated, refuted): a probe whose stat fails returns false and leaves the
remembered time, here 7, as it was. -/
theorem isasl_is_fresh_failed_stat_keeps_mtime :
    (⟨some "isasl.pw", fun _ => none, fun _ => none, true⟩ : world).stat (some "isasl.pw")
      = none ∧
    (isasl_is_fresh ⟨some "isasl.pw", fun _ => none, fun _ => none, true⟩ ⟨none, ⟨7⟩⟩).1
      = false ∧
    (isasl_is_fresh ⟨some "isasl.pw", fun _ => none, fun _ => none, true⟩
        ⟨none, ⟨7⟩⟩).2.prev_stat = ⟨7⟩ := by
  decide

/-- C17 (amended): `isasl_is_fresh` updates the remembered timestamp on every probe
whose stat succeeds, whether the probe returns true or false; a probe whose stat
fails leaves the whole static state, the remembered timestamp included, as it was. -/
theorem isasl_is_fresh_updates_on_successful_stat (w : world) (g : isasl_globals) :
    (∀ st, w.stat w.ISASL_PWFILE = some st →
      (isasl_is_fresh w g).2.prev_stat = st ∧
      (isasl_is_fresh w g).2.user_ht = g.user_ht) ∧
    (w.stat w.ISASL_PWFILE = none →
      (isasl_is_fresh w g).2 = g ∧ (isasl_is_fresh w g).1 = false) := by
  unfold isasl_is_fresh
  cases hs : w.stat w.ISASL_PWFILE with
  | none => simp
  | some st => simp

/-! ## Claims about the frame and the bounds of `sasl_server_start` -/

/-- C19: if `sasl_server_start` does not return `SASL_OK`, the username and config
of the session are exactly what they were before the call, so `sasl_getprop`
reports what it reported before; only a successful call replaces them. -/
theorem sasl_server_start_failure_keeps_session (hash : List Nat → Nat → Nat → Nat)
    (user_ht : Option user_ht_t) (conn : sasl_conn_t) (mech clientin : List Nat)
    (r : start_result) (hr : sasl_server_start hash user_ht conn mech clientin = some r)
    (hne : r.rv ≠ sasl_result.SASL_OK) :
    r.conn = conn ∧ r.conn.username = conn.username ∧ r.conn.config = conn.config ∧
    ∀ k, sasl_getprop r.conn k = sasl_getprop conn k := by
  rw [sasl_server_start_failure_conn hash user_ht conn mech clientin r hr hne]
  exact ⟨rfl, rfl, rfl, fun _ => rfl⟩

/-- The witness of C19: a session authenticated as alice fails a later call with a
wrong password and still reports alice and cfg1. -/
theorem sasl_server_start_failure_keeps_session_witness :
    (sasl_server_start test_hash (some (build_table test_hash (bytes "alice secretpw cfg1\n")))
        ⟨some (bytes "alice"), some (bytes "cfg1")⟩ PLAIN
        (0 :: bytes "alice" ++ 0 :: bytes "wrongpw")
      = some ⟨sasl_result.SASL_FAIL, ⟨some (bytes "alice"), some (bytes "cfg1")⟩, [], 0⟩ ∧
      sasl_result.SASL_FAIL ≠ sasl_result.SASL_OK) ∧
    ((⟨some (bytes "alice"), some (bytes "cfg1")⟩ : sasl_conn_t)
        = ⟨some (bytes "alice"), some (bytes "cfg1")⟩ ∧
      some (bytes "alice") = some (bytes "alice") ∧
      some (bytes "cfg1") = some (bytes "cfg1") ∧
      ∀ k, sasl_getprop ⟨some (bytes "alice"), some (bytes "cfg1")⟩ k
        = sasl_getprop ⟨some (bytes "alice"), some (bytes "cfg1")⟩ k) :=
  ⟨⟨by decide, by decide⟩,
    sasl_server_start_failure_keeps_session test_hash
      (some (build_table test_hash (bytes "alice secretpw cfg1\n")))
      ⟨some (bytes "alice"), some (bytes "cfg1")⟩ PLAIN
      (0 :: bytes "alice" ++ 0 :: bytes "wrongpw")
      ⟨sasl_result.SASL_FAIL, ⟨some (bytes "alice"), some (bytes "cfg1")⟩, [], 0⟩
      (by decide) (by decide)⟩

/-- C20: for every payload that reaches the password copy (length from 3 to 127,
byte 0 NUL, `pwlen > 0`), `pwlen` is `len - 2 - |username|` without wrap-around
and lies between 1 and 125, so the terminator write at `password[pwlen]` and the
copy of `pwlen` bytes stay inside the 128-byte buffer; the source of the copy
ends at offset `2 + |username| + pwlen = len`, and the bytes copied are exactly
the final `pwlen` bytes of the payload.  The last part shows that `plain_pwlen`
and `plain_password` are what the call hands to `check_up`. -/
theorem sasl_server_start_password_copy_in_bounds (payload : List Nat)
    (h1 : 2 < payload.length) (h2 : payload.length < 128) (h3 : payload.getD 0 0 = 0)
    (h4 : 0 < plain_pwlen payload) :
    1 ≤ plain_pwlen payload ∧ plain_pwlen payload ≤ 125 ∧
    plain_pwlen payload = (payload.length : Int) - 2 - (strlen (payload.drop 1) : Int) ∧
    (plain_pwlen payload).toNat + 1 ≤ 128 ∧
    2 + strlen (payload.drop 1) + (plain_pwlen payload).toNat = payload.length ∧
    plain_password payload
      = payload.drop (payload.length - (plain_pwlen payload).toNat) ++ [0] ∧
    (plain_password payload).length = (plain_pwlen payload).toNat + 1 ∧
    ∀ (hash : List Nat → Nat → Nat → Nat) (user_ht : Option user_ht_t) (conn : sasl_conn_t),
      sasl_server_start hash user_ht conn PLAIN payload =
        match check_up hash user_ht (payload.drop 1) (plain_password payload) with
        | none => none
        | some (false, _) => some ⟨sasl_result.SASL_FAIL, conn, [], 0⟩
        | some (true, none) => none
        | some (true, some cfg) =>
          some ⟨sasl_result.SASL_OK, ⟨some (strdup (payload.drop 1)), some (strdup cfg)⟩,
            [], 0⟩ := by
  have hl := strlen_le_length (payload.drop 1)
  rw [List.length_drop] at hl
  have hpw : plain_pwlen payload
      = (payload.length : Int) - 2 - (strlen (payload.drop 1) : Int) :=
    int_of_size_t_pwlen payload.length (strlen (payload.drop 1)) h1 h2 (by omega)
  rw [hpw] at h4
  have hnat : (plain_pwlen payload).toNat = payload.length - 2 - strlen (payload.drop 1) := by
    rw [hpw]
    omega
  have hdrop : payload.length - (plain_pwlen payload).toNat = 2 + strlen (payload.drop 1) := by
    rw [hnat]
    omega
  have hpass : plain_password payload
      = payload.drop (payload.length - (plain_pwlen payload).toNat) ++ [0] := by
    unfold plain_password
    rw [hdrop, List.take_of_length_le]
    rw [List.length_drop, hnat]
    omega
  refine ⟨by omega, by omega, hpw, by omega, by omega, hpass, ?_, ?_⟩
  · rw [hpass, List.length_append, List.length_drop, List.length_singleton]
    omega
  · intro hash user_ht conn
    rw [sasl_server_start_plain hash user_ht conn payload h1 h2 h3 (by omega), hpass, hdrop]

/-- The witness of C20: the payload NUL alice NUL secretpw of 15 bytes, whose
`pwlen` is 8. -/
theorem sasl_server_start_password_copy_in_bounds_witness :
    (2 < (0 :: bytes "alice" ++ 0 :: bytes "secretpw").length ∧
      (0 :: bytes "alice" ++ 0 :: bytes "secretpw").length < 128 ∧
      (0 :: bytes "alice" ++ 0 :: bytes "secretpw").getD 0 0 = 0 ∧
      0 < plain_pwlen (0 :: bytes "alice" ++ 0 :: bytes "secretpw") ∧
      plain_pwlen (0 :: bytes "alice" ++ 0 :: bytes "secretpw") = 8 ∧
      plain_password (0 :: bytes "alice" ++ 0 :: bytes "secretpw") = bytes "secretpw" ++ [0]) ∧
    1 ≤ plain_pwlen (0 :: bytes "alice" ++ 0 :: bytes "secretpw") ∧
    plain_pwlen (0 :: bytes "alice" ++ 0 :: bytes "secretpw") ≤ 125 :=
  ⟨⟨by decide, by decide, by decide, by decide, by decide, by decide⟩,
    (sasl_server_start_password_copy_in_bounds (0 :: bytes "alice" ++ 0 :: bytes "secretpw")
      (by decide) (by decide) (by decide) (by decide)).1,
    (sasl_server_start_password_copy_in_bounds (0 :: bytes "alice" ++ 0 :: bytes "secretpw")
      (by decide) (by decide) (by decide) (by decide)).2.1⟩

/-! ## The parser on an arbitrary buffer -/

theorem stop_of_head_zero (q : Nat → Bool) (z : List Nat) (hz : ∀ y ∈ z.head?, y = 0) :
    ∀ y ∈ z.head?, (y != 0 && q y) = false := by
  intro y hy
  rw [hz y hy]
  rfl

theorem getD_append_stop (A z : List Nat) (hz : ∀ y ∈ z.head?, y = 0) :
    (A ++ z).getD A.length 0 = 0 := by
  cases z with
  | nil =>
    rw [List.append_nil]
    exact List.getD_eq_default _ _ (le_refl _)
  | cons y r =>
    rw [getD_append_at]
    exact hz y (by simp)

theorem cstr_append_stop {a : List Nat} (h : ∀ x ∈ a, x ≠ 0) (z : List Nat)
    (hz : ∀ y ∈ z.head?, y = 0) : cstr (a ++ z) = a := by
  cases z with
  | nil =>
    rw [List.append_nil]
    exact cstr_of_nulfree h
  | cons y r =>
    have hy : y = 0 := hz y (by simp)
    subst hy
    exact cstr_append_zero h r

theorem cstr_stop (z : List Nat) (hz : ∀ y ∈ z.head?, y = 0) : cstr z = [] := by
  have h := cstr_append_stop (a := []) (by simp) z hz
  simpa using h

/-- The buffer holds a single word after `kill_whitey`. -/
theorem parse_line_trimmed_word (up a z : List Nat) (hk : kill_whitey up = a ++ z)
    (ha : ∀ x ∈ a, x ≠ 0 ∧ isspace x = false) (hz : ∀ y ∈ z.head?, y = 0) :
    parse_line up = (a, [], none) := by
  have hanul : ∀ x ∈ a, x ≠ 0 := fun x hx => (ha x hx).1
  have h1 : skip_while (fun c => !isspace c) (a ++ z) 0 = a.length :=
    skip_while_zero _ a z (fun x hx => nonspace_pass (ha x hx)) (stop_of_head_zero _ z hz)
  have h2 : (a ++ z).getD a.length 0 = 0 := getD_append_stop a z hz
  have h3 : cstr (a ++ z) = a := cstr_append_stop hanul z hz
  have h4 : cstr ((a ++ z).drop a.length) = [] := by
    rw [List.drop_left]
    exact cstr_stop z hz
  unfold parse_line
  simp only [hk, h1, h2, h3, h4, ne_eq, not_true_eq_false, if_false]

/-- The buffer holds a word, whitespace and at most one more word after
`kill_whitey`. -/
theorem parse_line_trimmed_two (up a w b z : List Nat) (x : Nat)
    (hk : kill_whitey up = a ++ (x :: (w ++ (b ++ z))))
    (ha : ∀ x ∈ a, x ≠ 0 ∧ isspace x = false) (hx : isspace x = true)
    (hw : ∀ x ∈ w, isspace x = true) (hb : ∀ x ∈ b, x ≠ 0 ∧ isspace x = false)
    (hz : ∀ y ∈ z.head?, y = 0) :
    parse_line up = (a, b, some []) := by
  have hanul : ∀ x ∈ a, x ≠ 0 := fun x hx => (ha x hx).1
  have hbnul : ∀ x ∈ b, x ≠ 0 := fun x hx => (hb x hx).1
  have hxne : x ≠ 0 := isspace_ne_zero hx
  have hbz : ∀ y ∈ (b ++ z).head?, (y != 0 && isspace y) = false := by
    intro y hy
    cases b with
    | nil =>
      rw [List.nil_append] at hy
      rw [hz y hy]
      rfl
    | cons b0 br =>
      simp at hy
      subst hy
      simp [(hb b0 (List.mem_cons_self _ _)).2]
  have h1 : skip_while (fun c => !isspace c) (a ++ (x :: (w ++ (b ++ z)))) 0 = a.length :=
    skip_while_zero _ a _ (fun x hx => nonspace_pass (ha x hx))
      (fun y hy => by simp at hy; subst hy; simp [hx])
  have h2 : (a ++ (x :: (w ++ (b ++ z)))).getD a.length 0 = x := getD_append_at a x _
  have h3 : (a ++ (x :: (w ++ (b ++ z)))).set a.length 0 = a ++ (0 :: (w ++ (b ++ z))) :=
    set_append_at a x 0 _
  have h4 : skip_while isspace (a ++ (0 :: (w ++ (b ++ z)))) (a.length + 1)
      = (a ++ [0] ++ w).length := by
    have e : a ++ (0 :: (w ++ (b ++ z))) = (a ++ [0]) ++ (w ++ (b ++ z)) := by simp
    have i : a.length + 1 = (a ++ [0]).length := by simp
    rw [e, i]
    exact skip_while_append isspace _ w _ (fun x hx => space_pass (hw x hx)) hbz
  have e5 : a ++ (0 :: (w ++ (b ++ z))) = (a ++ [0] ++ w) ++ (b ++ z) := by simp
  have h5 : skip_while (fun c => !isspace c) (a ++ (0 :: (w ++ (b ++ z))))
      (a ++ [0] ++ w).length = (a ++ [0] ++ w ++ b).length := by
    rw [e5]
    exact skip_while_append _ _ b _ (fun x hx => nonspace_pass (hb x hx))
      (stop_of_head_zero _ z hz)
  have e6 : a ++ (0 :: (w ++ (b ++ z))) = (a ++ [0] ++ w ++ b) ++ z := by simp
  have h6 : (a ++ (0 :: (w ++ (b ++ z)))).getD (a ++ [0] ++ w ++ b).length 0 = 0 := by
    rw [e6]
    exact getD_append_stop _ z hz
  have h7 : cstr (a ++ (0 :: (w ++ (b ++ z)))) = a := cstr_append_zero hanul _
  have h8 : cstr ((a ++ (0 :: (w ++ (b ++ z)))).drop (a ++ [0] ++ w).length) = b := by
    rw [e5, List.drop_left]
    exact cstr_append_stop hbnul z hz
  have h9 : cstr ((a ++ (0 :: (w ++ (b ++ z)))).drop (a ++ [0] ++ w ++ b).length) = [] := by
    rw [e6, List.drop_left]
    exact cstr_stop z hz
  unfold parse_line
  simp only [hk, h1, h2, h3, h4, h5, h6, h7, h8, h9, hxne, ne_eq, not_false_eq_true,
    not_true_eq_false, if_true, if_false]

/-- The buffer holds a word, whitespace, a second word, a whitespace byte and more
after `kill_whitey`. -/
theorem parse_line_trimmed_three (up a w b t z : List Nat) (x b0 y : Nat)
    (hk : kill_whitey up = (a ++ (x :: (w ++ (b0 :: (b ++ (y :: (t ++ z))))))))
    (ha : ∀ x ∈ a, x ≠ 0 ∧ isspace x = false) (hx : isspace x = true)
    (hw : ∀ x ∈ w, isspace x = true) (hb : ∀ x ∈ b0 :: b, x ≠ 0 ∧ isspace x = false)
    (hy : isspace y = true) (ht : ∀ x ∈ t, x ≠ 0) (hz : ∀ y ∈ z.head?, y = 0) :
    parse_line up = (a, b0 :: b, some t) := by
  have hanul : ∀ x ∈ a, x ≠ 0 := fun x hx => (ha x hx).1
  have hbnul : ∀ x ∈ b0 :: b, x ≠ 0 := fun x hx => (hb x hx).1
  have hxne : x ≠ 0 := isspace_ne_zero hx
  have hyne : y ≠ 0 := isspace_ne_zero hy
  have hb0 : isspace b0 = false := (hb b0 (List.mem_cons_self _ _)).2
  have h1 : skip_while (fun c => !isspace c) (a ++ (x :: (w ++ (b0 :: (b ++ (y :: (t ++ z))))))) 0 = a.length :=
    skip_while_zero _ a _ (fun x hx => nonspace_pass (ha x hx))
      (fun y hy => by simp at hy; subst hy; simp [hx])
  have h2 : (a ++ (x :: (w ++ (b0 :: (b ++ (y :: (t ++ z))))))).getD a.length 0 = x := getD_append_at a x _
  have h3 : (a ++ (x :: (w ++ (b0 :: (b ++ (y :: (t ++ z))))))).set a.length 0 = (a ++ (0 :: (w ++ (b0 :: (b ++ (y :: (t ++ z))))))) := set_append_at a x 0 _
  have h4 : skip_while isspace (a ++ (0 :: (w ++ (b0 :: (b ++ (y :: (t ++ z))))))) (a.length + 1) = (a ++ [0] ++ w).length := by
    have e : (a ++ (0 :: (w ++ (b0 :: (b ++ (y :: (t ++ z))))))) = (a ++ [0]) ++ (w ++ (b0 :: (b ++ (y :: (t ++ z))))) := by simp
    have i : a.length + 1 = (a ++ [0]).length := by simp
    rw [e, i]
    exact skip_while_append isspace _ w _ (fun x hx => space_pass (hw x hx))
      (fun y hy => by
        simp at hy
        subst hy
        simp [hb0])
  have e5 : (a ++ (0 :: (w ++ (b0 :: (b ++ (y :: (t ++ z))))))) = (a ++ [0] ++ w) ++ ((b0 :: b) ++ (y :: (t ++ z))) := by simp
  have h5 : skip_while (fun c => !isspace c) (a ++ (0 :: (w ++ (b0 :: (b ++ (y :: (t ++ z))))))) (a ++ [0] ++ w).length
      = (a ++ [0] ++ w ++ (b0 :: b)).length := by
    rw [e5]
    exact skip_while_append _ _ (b0 :: b) _ (fun x hx => nonspace_pass (hb x hx))
      (fun v hv => by simp at hv; subst hv; simp [hy])
  have e6 : (a ++ (0 :: (w ++ (b0 :: (b ++ (y :: (t ++ z))))))) = (a ++ [0] ++ w ++ (b0 :: b)) ++ (y :: (t ++ z)) := by simp
  have h6 : (a ++ (0 :: (w ++ (b0 :: (b ++ (y :: (t ++ z))))))).getD (a ++ [0] ++ w ++ (b0 :: b)).length 0 = y := by
    rw [e6]
    exact getD_append_at _ _ _
  have h6b : (a ++ (0 :: (w ++ (b0 :: (b ++ (y :: (t ++ z))))))).set (a ++ [0] ++ w ++ (b0 :: b)).length 0 = (a ++ (0 :: (w ++ (b0 :: (b ++ (0 :: (t ++ z))))))) := by
    rw [e6, set_append_at]
    simp
  have e7 : (a ++ (0 :: (w ++ (b0 :: (b ++ (0 :: (t ++ z))))))) = (a ++ [0] ++ w) ++ (b0 :: (b ++ (0 :: (t ++ z)))) := by simp
  have h6c : (a ++ (0 :: (w ++ (b0 :: (b ++ (0 :: (t ++ z))))))).getD (a ++ [0] ++ w).length 0 = b0 := by
    rw [e7]
    exact getD_append_at _ _ _
  have h7 : cstr (a ++ (0 :: (w ++ (b0 :: (b ++ (0 :: (t ++ z))))))) = a := cstr_append_zero hanul _
  have h8 : cstr ((a ++ (0 :: (w ++ (b0 :: (b ++ (0 :: (t ++ z))))))).drop (a ++ [0] ++ w).length) = b0 :: b := by
    rw [e7, List.drop_left]
    exact cstr_append_zero (a := b0 :: b) hbnul _
  have h9 : cstr ((a ++ (0 :: (w ++ (b0 :: (b ++ (0 :: (t ++ z))))))).drop ((a ++ [0] ++ w ++ (b0 :: b)).length + 1)) = t := by
    have e : (a ++ (0 :: (w ++ (b0 :: (b ++ (0 :: (t ++ z))))))) = (a ++ [0] ++ w ++ (b0 :: b) ++ [0]) ++ (t ++ z) := by simp
    have i : (a ++ [0] ++ w ++ (b0 :: b)).length + 1
        = (a ++ [0] ++ w ++ (b0 :: b) ++ [0]).length := by
      simp
      omega
    rw [e, i, List.drop_left]
    exact cstr_append_stop ht z hz
  unfold parse_line
  simp only [hk, h1, h2, h3, h4, h5, h6, h6b, h6c, hb0, skip_while_never, h7, h8, h9, hxne,
    hyne, ne_eq, not_false_eq_true, not_true_eq_false, if_true, if_false]

/-! ## The shape of every parsed line -/

theorem span_split (q : Nat → Bool) (l : List Nat) :
    ∃ a r, l = a ++ r ∧ (∀ x ∈ a, q x = true) ∧ (∀ y ∈ r.head?, q y = false) := by
  induction l with
  | nil => exact ⟨[], [], rfl, by simp, by simp⟩
  | cons x t ih =>
    by_cases hx : q x = true
    · obtain ⟨a, r, h1, h2, h3⟩ := ih
      refine ⟨x :: a, r, by rw [h1]; rfl, ?_, h3⟩
      intro v hv
      rcases List.mem_cons.mp hv with hv | hv
      · rw [hv]
        exact hx
      · exact h2 v hv
    · refine ⟨[], x :: t, rfl, by simp, ?_⟩
      intro y hy
      simp at hy
      subst hy
      simpa using hx

theorem cstr_set_zero (s : List Nat) : ∀ i, cstr (s.set i 0) = (cstr s).take i := by
  induction s with
  | nil => intro i; simp [cstr]
  | cons x t ih =>
    intro i
    cases i with
    | zero => simp [cstr]
    | succ n =>
      by_cases hx : x = 0
      · simp [cstr, hx]
      · have h := ih n
        simp only [cstr] at h
        simp [cstr, hx, h]

theorem cstr_append_rest (s : List Nat) :
    ∃ z, s = cstr s ++ z ∧ ∀ y ∈ z.head?, y = 0 := by
  obtain ⟨c, z, h1, h2, h3⟩ := span_split (fun c => c != 0) s
  have hz : ∀ y ∈ z.head?, y = 0 := by
    intro y hy
    simpa using h3 y hy
  have hc : cstr s = c := by
    rw [h1]
    exact cstr_append_stop (fun x hx => by simpa using h2 x hx) z hz
  rw [hc]
  exact ⟨z, h1, hz⟩

theorem cstr_head (s l : List Nat) (a0 : Nat) (h : cstr s = a0 :: l) : s.getD 0 0 = a0 := by
  cases s with
  | nil => simp [cstr] at h
  | cons x t =>
    by_cases hx : x = 0
    · simp [cstr, hx] at h
    · simp [cstr, hx] at h
      exact h.1

/-- After `kill_whitey`, a string of two bytes or more ends in a non-whitespace
byte. -/
theorem kill_whitey_loop_last (i : Nat) :
    ∀ (s : List Nat), i = strlen s - 1 → ∀ (c : List Nat) (x : Nat),
      cstr (kill_whitey_loop s i) = c ++ [x] → c ≠ [] → isspace x = false := by
  induction i with
  | zero =>
    intro s hi c x hc hne
    exfalso
    simp only [kill_whitey_loop] at hc
    have hl : strlen s = c.length + 1 := by
      unfold strlen
      rw [hc]
      simp
    have hpos : 0 < c.length := List.length_pos.mpr hne
    omega
  | succ n ih =>
    intro s hi c x hc hne
    simp only [kill_whitey_loop] at hc
    by_cases hsp : isspace (s.getD (n + 1) 0) = true
    · rw [if_pos hsp] at hc
      apply ih (s.set (n + 1) 0) _ c x hc hne
      unfold strlen at hi ⊢
      rw [cstr_set_zero, List.length_take]
      omega
    · rw [if_neg hsp] at hc
      obtain ⟨z, hz, _⟩ := cstr_append_rest s
      have hlen : c.length = n + 1 := by
        have : strlen s = c.length + 1 := by
          unfold strlen
          rw [hc]
          simp
        omega
      have hx : s.getD (n + 1) 0 = x := by
        rw [hz, hc, ← hlen]
        have e : c ++ [x] ++ z = c ++ x :: z := by simp
        rw [e]
        exact getD_append_at c x z
      rw [hx] at hsp
      simpa using hsp

theorem kill_whitey_last (up c : List Nat) (x : Nat)
    (hc : cstr (kill_whitey up) = c ++ [x]) (hne : c ≠ []) : isspace x = false :=
  kill_whitey_loop_last _ up rfl c x hc hne

/-- Every buffer parses in one of three ways: a single word; a word, whitespace and
at most one more word; or a word, whitespace, a second word and a config. -/
theorem parse_line_shape (up : List Nat) :
    ∃ a, (∀ x ∈ a, x ≠ 0 ∧ isspace x = false) ∧
      (∃ rest, cstr (kill_whitey up) = a ++ rest) ∧
      ((parse_line up = (a, [], none)) ∨
        (∃ x w b, isspace x = true ∧ (∀ v ∈ w, isspace v = true) ∧
          (∀ v ∈ b, isspace v = false) ∧ cstr (kill_whitey up) = a ++ (x :: (w ++ b)) ∧
          parse_line up = (a, b, some [])) ∨
        (∃ b0 b t, (∀ v ∈ b0 :: b, isspace v = false) ∧
          parse_line up = (a, b0 :: b, some t))) := by
  obtain ⟨z, hs, hz⟩ := cstr_append_rest (kill_whitey up)
  have hcnul := cstr_nulfree (kill_whitey up)
  generalize cstr (kill_whitey up) = c at hs hcnul
  obtain ⟨a, r, hc, ha1, hr⟩ := span_split (fun v => !isspace v) c
  have ha : ∀ x ∈ a, x ≠ 0 ∧ isspace x = false := by
    intro x hx
    refine ⟨hcnul x (by rw [hc]; exact List.mem_append_left _ hx), ?_⟩
    simpa using ha1 x hx
  refine ⟨a, ha, ⟨r, hc⟩, ?_⟩
  cases r with
  | nil =>
    left
    rw [hc, List.append_nil] at hs
    exact parse_line_trimmed_word up a z hs ha hz
  | cons x r1 =>
    right
    have hx : isspace x = true := by
      have := hr x (by simp)
      simpa using this
    obtain ⟨w, r2, hr1, hw, hr2⟩ := span_split isspace r1
    obtain ⟨b, r3, hr2b, hb1, hr3⟩ := span_split (fun v => !isspace v) r2
    have hbmem : ∀ v ∈ b, v ∈ c := by
      intro v hv
      rw [hc, hr1, hr2b]
      simp [hv]
    have hb : ∀ v ∈ b, v ≠ 0 ∧ isspace v = false := by
      intro v hv
      refine ⟨hcnul v (hbmem v hv), ?_⟩
      simpa using hb1 v hv
    cases r3 with
    | nil =>
      left
      rw [List.append_nil] at hr2b
      refine ⟨x, w, b, hx, hw, fun v hv => (hb v hv).2, by rw [hc, hr1, hr2b], ?_⟩
      have hk : kill_whitey up = a ++ (x :: (w ++ (b ++ z))) := by
        rw [hs, hc, hr1, hr2b]
        simp
      exact parse_line_trimmed_two up a w b z x hk ha hx hw hb hz
    | cons y t =>
      right
      have hy : isspace y = true := by
        have := hr3 y (by simp)
        simpa using this
      cases b with
      | nil =>
        exfalso
        rw [List.nil_append] at hr2b
        have := hr2 y (by rw [hr2b]; simp)
        rw [hy] at this
        simp at this
      | cons b0 b1 =>
        have ht : ∀ v ∈ t, v ≠ 0 := by
          intro v hv
          apply hcnul v
          rw [hc, hr1, hr2b]
          simp [hv]
        refine ⟨b0, b1, t, fun v hv => (hb v hv).2, ?_⟩
        have hk : kill_whitey up
            = a ++ (x :: (w ++ (b0 :: (b1 ++ (y :: (t ++ z)))))) := by
          rw [hs, hc, hr1, hr2b]
          simp
        exact parse_line_trimmed_three up a w b1 t z x b0 y hk ha hx hw hb hy ht hz

theorem line_record_wellformed (up : List Nat) (e : user_db_entry_t)
    (h : line_record up = some e) : record_wellformed e := by
  unfold line_record at h
  split_ifs at h with h35 hempty
  simp only [Option.some.injEq] at h
  subst h
  obtain ⟨a, ha, ⟨rest, hpre⟩, hshape⟩ := parse_line_shape up
  have hfst : (parse_line up).1 = a := by
    rcases hshape with h | ⟨_, _, _, _, _, _, _, h⟩ | ⟨_, _, _, _, h⟩ <;> rw [h]
  rw [hfst] at hempty
  obtain ⟨a0, a1, ha01⟩ := List.exists_cons_of_ne_nil hempty
  have hhead : a.head? ≠ some 35 := by
    rw [ha01]
    intro h0
    simp only [List.head?_cons, Option.some.injEq] at h0
    have hk : (kill_whitey up).getD 0 0 = a0 := by
      apply cstr_head _ (a1 ++ rest)
      rw [hpre, ha01]
      rfl
    have hk2 : (kill_whitey up).getD 0 0 = up.getD 0 0 := kill_whitey_loop_head _ up
    rw [hk2, h0] at hk
    exact h35 hk
  have hasp : ∀ x ∈ a, isspace x = false := fun x hx => (ha x hx).2
  unfold record_wellformed
  rcases hshape with h | ⟨x, w, b, hx, hw, hb, hc, h⟩ | ⟨b0, b, t, hb, h⟩
  · rw [h]
    exact ⟨hempty, hasp, hhead, by simp, by simp⟩
  · rw [h]
    have hbne : b ≠ [] := by
      intro hb0
      rw [hb0, List.append_nil] at hc
      have hl := List.dropLast_concat_getLast (List.cons_ne_nil x w)
      have hsp : isspace ((x :: w).getLast (List.cons_ne_nil x w)) = true := by
        rcases List.mem_cons.mp (List.getLast_mem (List.cons_ne_nil x w)) with hm | hm
        · rw [hm]
          exact hx
        · exact hw _ hm
      have hc2 : cstr (kill_whitey up)
          = (a ++ (x :: w).dropLast) ++ [(x :: w).getLast (List.cons_ne_nil x w)] := by
        rw [hc, List.append_assoc, hl]
      have := kill_whitey_last up _ _ hc2 (by
        intro hnil
        rw [ha01] at hnil
        simp at hnil)
      rw [hsp] at this
      simp at this
    exact ⟨hempty, hasp, hhead, hb, by simp [hbne]⟩
  · rw [h]
    exact ⟨hempty, hasp, hhead, hb, by simp⟩

theorem mem_foldl_insert_entry (hash : List Nat → Nat → Nat → Nat)
    (recs : List user_db_entry_t) :
    ∀ (ht : user_ht_t) (i : Nat) (e : user_db_entry_t),
      e ∈ (recs.foldl (insert_entry hash) ht) i → e ∈ recs ∨ e ∈ ht i := by
  induction recs with
  | nil => intro ht i e h; exact Or.inr h
  | cons r rs ih =>
    intro ht i e h
    rw [List.foldl_cons] at h
    rcases ih _ i e h with h1 | h1
    · exact Or.inl (List.mem_cons_of_mem _ h1)
    · unfold insert_entry at h1
      split_ifs at h1
      · rcases List.mem_cons.mp h1 with h2 | h2
        · left
          rw [h2]
          exact List.mem_cons_self _ _
        · exact Or.inr h2
      · exact Or.inr h1

/-- C18: every record of every table built by `load_user_db`, for every credential
file and hash function, has a non-empty username that contains no whitespace and
does not begin with `#`, a password that contains no whitespace, and a config
that is null exactly when the password is the empty string. -/
theorem build_table_records_wellformed (hash : List Nat → Nat → Nat → Nat)
    (file : List Nat) (i : Nat) (e : user_db_entry_t)
    (h : e ∈ build_table hash file i) : record_wellformed e := by
  unfold build_table at h
  rw [read_lines_eq_foldl] at h
  rcases mem_foldl_insert_entry hash _ empty_ht i e h with h1 | h1
  · rw [List.mem_filterMap] at h1
    obtain ⟨up, _, hup⟩ := h1
    exact line_record_wellformed up e hup
  · simp [empty_ht] at h1

/-- The witness of C18: the record of alice in the table of the sample file of the
specification. -/
theorem build_table_records_wellformed_witness :
    ((⟨bytes "alice", bytes "secretpw", some (bytes "someconfigblob")⟩ : user_db_entry_t)
      ∈ build_table test_hash
          (bytes "# comment line\nalice secretpw someconfigblob\nbob anotherpw\ncarol\n")
          (u_hash_key test_hash (bytes "alice"))) ∧
    record_wellformed ⟨bytes "alice", bytes "secretpw", some (bytes "someconfigblob")⟩ :=
  ⟨by decide,
    build_table_records_wellformed test_hash
      (bytes "# comment line\nalice secretpw someconfigblob\nbob anotherpw\ncarol\n")
      (u_hash_key test_hash (bytes "alice")) _ (by decide)⟩

/-! ## Lookups running against a reload -/

theorem plain_password_eq (clientin : List Nat) (h1 : 2 < clientin.length)
    (h2 : clientin.length < 128) (h4 : 0 < plain_pwlen clientin) :
    2 + strlen (clientin.drop 1) < clientin.length ∧
    plain_password clientin = clientin.drop (2 + strlen (clientin.drop 1)) ++ [0] := by
  have hl := strlen_le_length (clientin.drop 1)
  rw [List.length_drop] at hl
  have hpw : plain_pwlen clientin
      = (clientin.length : Int) - 2 - (strlen (clientin.drop 1) : Int) :=
    int_of_size_t_pwlen clientin.length (strlen (clientin.drop 1)) h1 h2 (by omega)
  rw [hpw] at h4
  refine ⟨by omega, ?_⟩
  unfold plain_password
  rw [List.take_of_length_le]
  rw [List.length_drop, hpw]
  omega

/-- With no reload between its two parts, a lookup thread ends as the sequential
`sasl_server_start` does. -/
theorem lookup_steps_eq_sasl_server_start (hash : List Nat → Nat → Nat → Nat)
    (s : shared_store) (conn : sasl_conn_t) (clientin : List Nat)
    (hlive : s.generation ∉ s.freed) :
    (match lookup_check_up hash s conn clientin with
      | lookup_thread.after_check_up _ username cfg generation =>
        lookup_strdup s username cfg generation
      | t => t)
      = match sasl_server_start hash s.user_ht conn PLAIN clientin with
        | none => lookup_thread.aborted
        | some r => lookup_thread.returned r := by
  unfold lookup_check_up
  by_cases hg : clientin.length > 2 ∧ clientin.length < 128 ∧ clientin.getD 0 0 = 0
  · rw [if_pos hg]
    have hl := strlen_le_length (clientin.drop 1)
    rw [List.length_drop] at hl
    have hpw : plain_pwlen clientin
        = (clientin.length : Int) - 2 - (strlen (clientin.drop 1) : Int) :=
      int_of_size_t_pwlen clientin.length (strlen (clientin.drop 1)) hg.1 hg.2.1 (by omega)
    by_cases hp : plain_pwlen clientin > 0
    · rw [if_pos hp]
      obtain ⟨h4, hpass⟩ := plain_password_eq clientin hg.1 hg.2.1 hp
      rw [sasl_server_start_plain hash s.user_ht conn clientin hg.1 hg.2.1 hg.2.2 h4, hpass]
      cases check_up hash s.user_ht (clientin.drop 1)
          (clientin.drop (2 + strlen (clientin.drop 1)) ++ [0]) with
      | none => rfl
      | some r =>
        obtain ⟨rv, cfg⟩ := r
        cases rv with
        | false => rfl
        | true =>
          cases cfg with
          | none => rfl
          | some c => simp [lookup_strdup, hlive]
    · rw [if_neg hp]
      rw [sasl_server_start_malformed hash s.user_ht conn PLAIN clientin (by
        rintro ⟨_, _, _, h4⟩
        apply hp
        rw [hpw]
        omega)]
  · rw [if_neg hg]
    rw [sasl_server_start_malformed hash s.user_ht conn PLAIN clientin (by
      rintro ⟨h1, h2, h3, _⟩
      exact hg ⟨h1, h2, h3⟩)]

/-- Whatever the table, the payload and the reloaded file: a thread that left
`check_up` with a non-null `cfg` and resumes after a reload reads the released
table. -/
theorem lookup_strdup_after_reload (hash : List Nat → Nat → Nat → Nat) (s : shared_store)
    (ht : user_ht_t) (hs : s.user_ht = some ht) (conn : sasl_conn_t)
    (clientin file username c : List Nat) (generation : Nat)
    (h : lookup_check_up hash s conn clientin
      = lookup_thread.after_check_up conn username (some c) generation) :
    lookup_strdup (swap_user_ht (build_table hash file) s) username (some c) generation
      = lookup_thread.read_freed_table := by
  have hgen : generation = s.generation := by
    unfold lookup_check_up at h
    split_ifs at h
    split at h
    · simp at h
    · simp at h
    · simp only [lookup_thread.after_check_up.injEq] at h
      exact h.2.2.2.symm
  subst hgen
  simp [lookup_strdup, swap_user_ht, hs]

/-- C15 (the code departs from the claim): two lookups of alice run against one
reload.  Thread 0 passes `check_up` on the table of `alice secretpw cfg1` and
leaves the lock holding a pointer to that table's config; the reload then frees
that table and installs the table of `alice secretpw cfg2`; thread 1 runs wholly
after the reload and returns cfg2; thread 0 resumes and its `strdup(cfg)` reads
the config of the released table. -/
theorem lookup_reads_freed_table_after_reload :
    (run_schedule test_hash
        ⟨⟨some (build_table test_hash (bytes "alice secretpw cfg1\n")), 0, []⟩,
          [lookup_thread.at_start sasl_server_new (0 :: bytes "alice" ++ 0 :: bytes "secretpw"),
            lookup_thread.at_start sasl_server_new
              (0 :: bytes "alice" ++ 0 :: bytes "secretpw")]⟩
        [sched_event.run_check_up 0,
          sched_event.run_reload (bytes "alice secretpw cfg2\n")]).threads
      = [lookup_thread.after_check_up sasl_server_new (bytes "alice" ++ 0 :: bytes "secretpw")
            (some (bytes "cfg1")) 0,
          lookup_thread.at_start sasl_server_new
            (0 :: bytes "alice" ++ 0 :: bytes "secretpw")] ∧
    (run_schedule test_hash
        ⟨⟨some (build_table test_hash (bytes "alice secretpw cfg1\n")), 0, []⟩,
          [lookup_thread.at_start sasl_server_new (0 :: bytes "alice" ++ 0 :: bytes "secretpw"),
            lookup_thread.at_start sasl_server_new
              (0 :: bytes "alice" ++ 0 :: bytes "secretpw")]⟩
        [sched_event.run_check_up 0,
          sched_event.run_reload (bytes "alice secretpw cfg2\n")]).store.freed = [0] ∧
    (run_schedule test_hash
        ⟨⟨some (build_table test_hash (bytes "alice secretpw cfg1\n")), 0, []⟩,
          [lookup_thread.at_start sasl_server_new (0 :: bytes "alice" ++ 0 :: bytes "secretpw"),
            lookup_thread.at_start sasl_server_new
              (0 :: bytes "alice" ++ 0 :: bytes "secretpw")]⟩
        [sched_event.run_check_up 0,
          sched_event.run_reload (bytes "alice secretpw cfg2\n"),
          sched_event.run_check_up 1,
          sched_event.run_strdup 0,
          sched_event.run_strdup 1]).threads
      = [lookup_thread.read_freed_table,
          lookup_thread.returned
            ⟨sasl_result.SASL_OK, ⟨some (bytes "alice"), some (bytes "cfg2")⟩, [], 0⟩] := by
  decide

end Isasl
